import Mathlib

/-!
# A shallow embedding of `logger.go`

The rotating file logger of `wenruo95/logger`: the rotation policy (`check`,
`needMove`), the naming of rotated files (`genFileName`, `getFileNum`), the
construction (`NewLoggerArgs`), the producer side (`enqueue`, `Print`,
`Printf`) and the writer step (`sprintf`, `move`), over an explicit model of
the file system, the clock and standard output.

Conventions of the embedding.
* A Go `string` is a byte sequence; it is embedded as `List Char`, one `Char`
  per byte, and `len` is `List.length`.
* `int32` and `int64` values are integers kept in range by `wrap32` and
  `wrap64` after every arithmetic operation of the source.
* Everything the code reads from the outside at one writer step (the clock,
  whether a system call succeeds) is an explicit argument, `Env`. Its fields
  are independent of each other, so the several readings of `time.Now()`
  within one step need not agree.
* An open file handle is the index of an inode, so writes follow the file
  across a rename; a file holds the list of buffers written to it.
* Standard output and the calls of `os.Rename` are recorded as event lists in
  the state, next to the fields of the struct `Logger`.
-/

namespace GoLogger

/-! ## Constants -/

def DEBUG_LEVEL : Int := 0
def INFO_LEVEL : Int := 1
def WARNINIG_LEVEL : Int := 2
def ERROR_LEVEL : Int := 3
def PRINT_LEVEL : Int := 4
def PRINTF_LEVEL : Int := 5
def FATAL_LEVEL : Int := 6

def MOVE_DEFAULT_DAYS : Int := 1
def MOVE_DEFAULT_LINES : Int := 100 * 10000
def MOVE_DEFAULT_BYTES : Int := 100 * 1024 * 1024
def MOVE_MAX_BYTES : Int := 1 * 1024 * 1024 * 1024

def LOG_SUFFIX : List Char := ['.', 'l', 'o', 'g']

/-! ## Machine integers -/

/-- Two's-complement reduction of an integer to `int32`. -/
def wrap32 (x : Int) : Int := (x + 2 ^ 31) % 2 ^ 32 - 2 ^ 31

/-- Two's-complement reduction of an integer to `int64`. -/
def wrap64 (x : Int) : Int := (x + 2 ^ 63) % 2 ^ 64 - 2 ^ 63

/-! ## Rotation policy -/

/-- The struct `MoveMethod`: `MaxDay int`, `MaxLines int32`, `MaxBytes int64`. -/
structure MoveMethod where
  MaxDay : Int
  MaxLines : Int
  MaxBytes : Int
  deriving DecidableEq, Repr

/-- The function `check`; a nil pointer is `none`. -/
def check (val : Option MoveMethod) : MoveMethod :=
  match val with
  | none =>
    { MaxDay := MOVE_DEFAULT_DAYS, MaxLines := MOVE_DEFAULT_LINES, MaxBytes := MOVE_DEFAULT_BYTES }
  | some v =>
    if v.MaxDay = 0 ∧ v.MaxBytes = 0 ∧ v.MaxLines = 0 then
      { MaxDay := MOVE_DEFAULT_DAYS, MaxLines := MOVE_DEFAULT_LINES,
        MaxBytes := MOVE_DEFAULT_BYTES }
    else if v.MaxBytes > MOVE_MAX_BYTES then
      { v with MaxBytes := MOVE_MAX_BYTES }
    else v

/-! ## Strings and the library functions the code calls -/

/-- Go `strings.Contains(s, sub)`: `sub` occurs in `s` at some offset. -/
def contains (s sub : List Char) : Bool :=
  s.tails.any (fun t => sub.isPrefixOf t)

/-- Decimal digits of a natural number, most significant first (`%d`). -/
def decimal (n : Nat) : List Char := Nat.toDigits 10 n

/-- Pad `ds` on the left with `'0'` up to `w` characters. -/
def zeroPad (w : Nat) (ds : List Char) : List Char :=
  List.replicate (w - ds.length) '0' ++ ds

/-- Go `fmt.Sprintf("%0<w>d", n)`: zero padding to width `w`, the sign of
a negative number counting as one column. -/
def sprintfZeroPad (w : Nat) (n : Int) : List Char :=
  if n < 0 then '-' :: zeroPad (w - 1) (decimal n.natAbs) else zeroPad w (decimal n.natAbs)

/-- Value of a string of decimal digits as a natural number, `none` if the
string is empty or not all digits. -/
def parseDigits (s : List Char) : Option Nat :=
  if s = [] then none
  else s.foldl (fun acc c => acc.bind (fun a =>
    if c.isDigit then some (10 * a + (c.toNat - '0'.toNat)) else none)) (some 0)

/-- Outcome of Go `strconv.ParseUint(s, 10, 64)`: a syntax error, a range
error (the value returned with it is `2 ^ 64 - 1`), or the value. -/
inductive ParseResult where
  | syntaxError
  | rangeError
  | value (n : Nat)
  deriving DecidableEq, Repr

/-- The loop of `ParseUint` in base 10 over the bytes that remain, `n` being
the value read so far: a byte that is not a digit is a syntax error, and the
loop returns with a range error as soon as `n * 10` or `n * 10 + d` would
leave `uint64`, without looking at the bytes that follow. -/
def parseUintLoop : List Char → Nat → ParseResult
  | [], n => ParseResult.value n
  | c :: rest, n =>
    if c.isDigit then
      if n ≥ 1844674407370955162 then ParseResult.rangeError
      else if 10 * n + (c.toNat - '0'.toNat) > 18446744073709551615 then
        ParseResult.rangeError
      else parseUintLoop rest (10 * n + (c.toNat - '0'.toNat))
    else ParseResult.syntaxError

/-- Go `strconv.ParseUint(s, 10, 64)`. -/
def parseUint (s : List Char) : ParseResult :=
  if s = [] then ParseResult.syntaxError else parseUintLoop s 0

/-- Go `strconv.Atoi` on a 64-bit platform with its error result dropped
(`num, _ := strconv.Atoi(target)`): an optional sign, then `ParseUint`; `0` on
a syntax error, the nearest bound of `int64` on a range error or when the
value does not fit. -/
def atoi (s : List Char) : Int :=
  match s with
  | [] => 0
  | c :: rest =>
    match parseUint (if c = '+' ∨ c = '-' then rest else s) with
    | ParseResult.syntaxError => 0
    | ParseResult.rangeError => if c = '-' then -(2 ^ 63) else 2 ^ 63 - 1
    | ParseResult.value v =>
      if c = '-' then (if (v : Int) > 2 ^ 63 then -(2 ^ 63) else -(v : Int))
      else (if (v : Int) ≥ 2 ^ 63 then 2 ^ 63 - 1 else (v : Int))

/-! ## The file system, the environment and the logger state -/

/-- A file system: every file (inode) holds the buffers written to it, in
order; the directory maps a path to the index of its inode. An open handle is
an inode index, so it follows the file across a rename. -/
structure FileSys where
  inodes : List (List (List Char))
  dir : List (List Char × Nat)
  deriving DecidableEq, Repr

/-- Inode a path names, if any. -/
def FileSys.lookup (fs : FileSys) (path : List Char) : Option Nat :=
  (fs.dir.find? (fun e => e.1 = path)).map (fun e => e.2)

/-- Buffers written so far to inode `i`. -/
def FileSys.data (fs : FileSys) (i : Nat) : List (List Char) :=
  fs.inodes.getD i []

/-- Buffers of the file at `path` (empty when there is no such file). -/
def FileSys.read (fs : FileSys) (path : List Char) : List (List Char) :=
  match fs.lookup path with
  | some i => fs.data i
  | none => []

/-- `os.Rename(old, new)` when it succeeds: `new` names the file `old` named,
replacing whatever `new` named before. -/
def FileSys.rename (fs : FileSys) (old new : List Char) (i : Nat) : FileSys :=
  { fs with dir := (new, i) :: fs.dir.filter (fun e => e.1 ≠ old ∧ e.1 ≠ new) }

/-- `os.OpenFile(path, O_APPEND|O_CREATE|O_WRONLY, 0644)` when it succeeds: the
existing file, or a new empty one. -/
def FileSys.openAppend (fs : FileSys) (path : List Char) : FileSys × Nat :=
  match fs.lookup path with
  | some i => (fs, i)
  | none =>
    ({ inodes := fs.inodes ++ [[]], dir := (path, fs.inodes.length) :: fs.dir },
      fs.inodes.length)

/-- `(*os.File).Write(buff)` when it succeeds: the buffer is appended. -/
def FileSys.write (fs : FileSys) (i : Nat) (buff : List Char) : FileSys :=
  { fs with inodes := fs.inodes.modify (fun d => d ++ [buff]) i }

/-- What one writer step reads from outside the program. -/
structure Env where
  /-- Result of `time.Now().Unix()`. -/
  now : Int
  /-- Result of `time.Now().Format("2006-01-02")`. -/
  date : List Char
  /-- Unix time of local midnight at the start of today
  (`time.Date(y, m, d, 0, 0, 0, 0, loc).Unix()`). -/
  midnight : Int
  /-- Zone offset, in seconds, that `time.Date` applies to local midnight `d`
  calendar days from today, minus the offset of today's midnight; `0` in a
  zone whose offset does not change. -/
  zoneShift : Int → Int
  /-- Whether `os.Rename` succeeds when its source exists. -/
  renameOk : Bool
  /-- Whether `os.OpenFile` succeeds. -/
  openOk : Bool
  /-- Whether `Write` stores the buffer. -/
  writeOk : Bool

/-- A call that prints to standard output. -/
inductive Event where
  /-- The call `fmt.Print(content)` of `sprintf`. -/
  | print (content : List Char)
  /-- The diagnostic "rename log error!" of `move`. -/
  | renameError (oldPath newPath : List Char)
  /-- The diagnostic "open log error!" of `move`. -/
  | openError (path : List Char)
  /-- The diagnostic "osfile is nil!" of `move`. -/
  | osfileNil
  /-- The diagnostic "open file error!" of `NewLoggerArgs`. -/
  | openFileError (path : List Char)
  /-- The line "bytes:<n>" that `NewLoggerArgs` prints after `Stat`. -/
  | bytesReport (bytes : Int)
  deriving DecidableEq, Repr

/-- One call of `os.Rename`: its two arguments and whether it returned nil. -/
structure RenameCall where
  oldPath : List Char
  newPath : List Char
  ok : Bool
  deriving DecidableEq, Repr

/-- The struct `LogInfo`. -/
structure LogInfo where
  level : Int
  content : List Char
  deriving DecidableEq, Repr

/-- The struct `Logger` (without its channel) together with the world it acts
on: the file system, standard output, the calls of `os.Rename` made so far and
whether `os.Exit(1)` was called. -/
structure Logger where
  osFile : Option Nat
  logFile : List Char
  logPath : List Char
  level : Int
  console : Bool
  method : MoveMethod
  fileExpire : Int
  lines : Int
  bytes : Int
  fileNum : Int
  fs : FileSys
  stdout : List Event
  renames : List RenameCall
  exited : Bool
  deriving DecidableEq, Repr

/-! ## The operations of `logger.go` -/

/-- Seconds from the Unix epoch to local midnight `d` calendar days after
today's, as an unbounded integer: `86400` seconds per calendar day from
today's midnight, corrected by the change of zone offset. -/
def Env.localMidnight (env : Env) (d : Int) : Int :=
  env.midnight + 86400 * d - env.zoneShift d

/-- The function `nextSplitDayUnix`. `time.Date` and `AddDate` count the days
and the seconds in 64-bit words, so the value `Unix()` returns is the instant
of the local midnight reduced to `int64`. -/
def nextSplitDayUnix (env : Env) (day : Int) : Int :=
  if day < 1 then 0 else wrap64 (env.localMidnight day)

/-- The method `needMove`. -/
def needMove (env : Env) (l : Logger) : Bool :=
  if (l.method.MaxLines > 0 ∧ l.lines > l.method.MaxLines) ∨
      (l.method.MaxBytes > 0 ∧ l.bytes > l.method.MaxBytes) ∨
      (l.method.MaxDay > 0 ∧ env.now > l.fileExpire) then true
  else false

/-- The loop `for num := fileNum; num > 0; num = num / 10 { count++ }`,
run for at most `fuel` iterations. -/
def countLoop : Nat → Int → Nat → Nat
  | 0, _, count => count
  | fuel + 1, num, count =>
    if num > 0 then countLoop fuel (Int.tdiv num 10) (count + 1) else count

/-- The part of a file name before its last four bytes when the name contains
".log", the whole name otherwise (`core` in `getFileNum` and `genFileName`). -/
def coreName (logFile : List Char) : List Char :=
  if contains logFile LOG_SUFFIX then logFile.take (logFile.length - LOG_SUFFIX.length)
  else logFile

/-- The body of `genFileName` on the three values it reads: the field
`logFile`, today's date and the field `fileNum`. The loop runs on an `int32`,
so eleven iterations always reach its exit. -/
def rotatedName (logFile date : List Char) (fileNum : Int) : List Char :=
  let count := countLoop 11 fileNum 0
  let suffix := if count > 3 then sprintfZeroPad count fileNum else sprintfZeroPad 3 fileNum
  coreName logFile ++ ['.'] ++ date ++ ['.'] ++ suffix ++ LOG_SUFFIX

/-- The method `genFileName`. -/
def genFileName (env : Env) (l : Logger) : List Char :=
  rotatedName l.logFile env.date l.fileNum

/-- The body of the loop of `getFileNum` for one directory entry. -/
def getFileNumStep (pre : List Char) (max : Int) (name : List Char) : Int :=
  if contains name pre then
    let target := name.drop pre.length
    if contains target LOG_SUFFIX then
      let num := atoi (target.take (target.length - LOG_SUFFIX.length))
      if num > max then num else max
    else max
  else max

/-- The method `getFileNum` on the names of the directory entries. -/
def getFileNum (env : Env) (l : Logger) (files : List (List Char)) : Int :=
  if files.length = 0 then 0
  else
    let pre := coreName l.logFile ++ ['.'] ++ env.date ++ ['.']
    wrap32 (files.foldl (getFileNumStep pre) 0)

/-- The call `os.Rename(oldPath, _)`: it fails when the environment says so or
when nothing is at `oldPath`; otherwise it moves the inode it returns here. -/
def osRename (env : Env) (fs : FileSys) (oldPath : List Char) : Option Nat :=
  if env.renameOk then fs.lookup oldPath else none

/-- The method `move`. -/
def move (env : Env) (l : Logger) : Logger :=
  let l1 : Logger := { l with
    lines := 0, bytes := 0, fileNum := wrap32 (l.fileNum + 1),
    fileExpire := nextSplitDayUnix env l.method.MaxDay }
  let oldPath := l1.logPath ++ ['/'] ++ l1.logFile
  let newPath := l1.logPath ++ ['/'] ++ genFileName env l1
  match osRename env l1.fs oldPath with
  | none =>
    { l1 with
      renames := l1.renames ++ [{ oldPath := oldPath, newPath := newPath, ok := false }]
      stdout := l1.stdout ++ [Event.renameError oldPath newPath] }
  | some i =>
    let l2 : Logger := { l1 with
      renames := l1.renames ++ [{ oldPath := oldPath, newPath := newPath, ok := true }]
      fs := l1.fs.rename oldPath newPath i }
    if env.openOk then
      let opened := l2.fs.openAppend oldPath
      let out := if l2.osFile.isSome then l2.stdout else l2.stdout ++ [Event.osfileNil]
      { l2 with fs := opened.1, stdout := out, osFile := some opened.2 }
    else
      { l2 with stdout := l2.stdout ++ [Event.openError oldPath] }

/-- The part of `sprintf` after the rotation check: the level filter, the
console echo, the write to the file or the fallback print, and `os.Exit(1)`
for a fatal record. -/
def writeRecord (env : Env) (level : Int) (content : List Char) (l : Logger) : Logger :=
  if level < l.level then l
  else
    let l2 : Logger :=
      if l.console then { l with stdout := l.stdout ++ [Event.print content] } else l
    let l3 : Logger :=
      match l2.osFile with
      | some h =>
        { l2 with
          lines := wrap32 (l2.lines + 1)
          bytes := wrap64 (l2.bytes + content.length)
          fs := if env.writeOk then l2.fs.write h content else l2.fs }
      | none =>
        if l2.console then l2 else { l2 with stdout := l2.stdout ++ [Event.print content] }
    if level = FATAL_LEVEL then { l3 with exited := true } else l3

/-- The method `sprintf`: one step of the writer. -/
def sprintf (env : Env) (level : Int) (content : List Char) (l : Logger) : Logger :=
  writeRecord env level content (if needMove env l then move env l else l)

/-- The loop of `serve` on the records taken from the channel, each with the
environment of its step; nothing runs after `os.Exit`. -/
def serve : List (Env × LogInfo) → Logger → Logger
  | [], l => l
  | (env, info) :: rest, l =>
    let l1 := sprintf env info.level info.content l
    if l1.exited then l1 else serve rest l1

/-! ## Statements of the specification and concrete inputs -/

/-- The rotation triggers as the specification words them: the third trigger
is `now ≥ nextRotationDeadline`. -/
def needMoveSpec (env : Env) (l : Logger) : Prop :=
  (l.method.MaxLines > 0 ∧ l.lines > l.method.MaxLines) ∨
    (l.method.MaxBytes > 0 ∧ l.bytes > l.method.MaxBytes) ∨
    (l.method.MaxDay > 0 ∧ env.now ≥ l.fileExpire)

/-- The policy `check` substitutes for an absent or all-zero one. -/
def defaultMethod : MoveMethod :=
  { MaxDay := 1, MaxLines := 1000000, MaxBytes := 104857600 }

/-- An environment on 2026-11-04 in which every system call succeeds; local
midnight of that day is `1793750400`, the clock reads 10:00:00. -/
def envOk : Env where
  now := 1793786400
  date := "2026-11-04".toList
  midnight := 1793750400
  zoneShift := fun _ => 0
  renameOk := true
  openOk := true
  writeOk := true

/-- A logger on `/tmp/logs/app.log`, freshly opened on an empty file, with the
default policy and the daily deadline at the coming midnight. -/
def loggerFresh : Logger where
  osFile := some 0
  logFile := "app.log".toList
  logPath := "/tmp/logs".toList
  level := 0
  console := false
  method := defaultMethod
  fileExpire := 1793836800
  lines := 0
  bytes := 0
  fileNum := 0
  fs := { inodes := [[]], dir := [("/tmp/logs/app.log".toList, 0)] }
  stdout := []
  renames := []
  exited := false

/-- The environment `envOk` with `os.Rename` failing. -/
def envRenameFails : Env := { envOk with renameOk := false }

/-- A logger with `MaxLines = 3` only, whose active file already holds four
records of ten bytes: the line trigger of `needMove` is set. -/
def loggerFull : Logger :=
  { loggerFresh with
    method := { MaxDay := 0, MaxLines := 3, MaxBytes := 0 }
    lines := 4
    bytes := 40
    fs := { inodes := [["record 00\n".toList, "record 01\n".toList, "record 02\n".toList,
              "record 03\n".toList]],
            dir := [("/tmp/logs/app.log".toList, 0)] } }

/-- The logger `loggerFull` with minimum level Info. -/
def loggerFullInfo : Logger := { loggerFull with level := 1 }

/-- The sequence field of a rotated name as the specification words it: the
decimal form of `n`, zero-padded to width `max 3 (digit count)`. -/
def seqField (n : Nat) : List Char :=
  zeroPad (max 3 (decimal n).length) (decimal n)

/-- The logger `loggerFull` at the last positive sequence number of `int32`. -/
def loggerLast : Logger := { loggerFull with fileNum := 2147483647 }

/-- The records `serve` processes: those up to and including the first one of
level Fatal. -/
def untilFatal : List (Env × LogInfo) → List (Env × LogInfo)
  | [] => []
  | e :: rest => if e.2.level = FATAL_LEVEL then [e] else e :: untilFatal rest

/-- Every system call of the step succeeds. -/
def Env.allOk (env : Env) : Prop :=
  env.renameOk = true ∧ env.openOk = true ∧ env.writeOk = true

/-- The stable path of the active file, `logPath + "/" + logFile`. -/
def Logger.stablePath (l : Logger) : List Char :=
  l.logPath ++ ['/'] ++ l.logFile

/-- State of a logger with policy `MaxLines = L` only and minimum level Debug
after `n` records: the handle is the file at the stable path, the line counter
is the number of records in it, at most `L + 1`, and every file a rename has
produced holds `L + 1` records. -/
def LinesInv (L : Nat) (l : Logger) (n : Nat) : Prop :=
  l.method = { MaxDay := 0, MaxLines := (L : Int), MaxBytes := 0 } ∧
  l.level = DEBUG_LEVEL ∧
  ∃ h, l.osFile = some h ∧ l.fs.lookup l.stablePath = some h ∧
    h < l.fs.inodes.length ∧
    l.lines = ((l.fs.data h).length : Int) ∧ (l.fs.data h).length ≤ L + 1 ∧
    (0 < n → 0 < (l.fs.data h).length) ∧
    n = l.renames.length * (L + 1) + (l.fs.data h).length ∧
    ∀ c ∈ l.renames, c.ok = true ∧ c.newPath ≠ l.stablePath ∧
      ∃ i, l.fs.lookup c.newPath = some i ∧ i ≠ h ∧ i < l.fs.inodes.length ∧
        (l.fs.data i).length = L + 1

instance (env : Env) : Decidable env.allOk :=
  inferInstanceAs (Decidable (env.renameOk = true ∧ env.openOk = true ∧ env.writeOk = true))

/-- The logger `loggerFresh` with the policy `MaxLines = 3` only. -/
def loggerLines3 : Logger :=
  { loggerFresh with method := { MaxDay := 0, MaxLines := 3, MaxBytes := 0 } }

/-- Seven Info records, each processed in the environment `envOk`. -/
def sevenRecords : List (Env × LogInfo) :=
  [(envOk, { level := 1, content := "line 1\n".toList }),
   (envOk, { level := 1, content := "line 2\n".toList }),
   (envOk, { level := 1, content := "line 3\n".toList }),
   (envOk, { level := 1, content := "line 4\n".toList }),
   (envOk, { level := 1, content := "line 5\n".toList }),
   (envOk, { level := 1, content := "line 6\n".toList }),
   (envOk, { level := 1, content := "line 7\n".toList })]

/-- State of a logger started at sequence number `s` with minimum level `lv`
after the records `recs`, every file operation having succeeded: the handle is
the file at the stable path, the rename calls went to pairwise distinct names
of sequence numbers above `s`, the files at those names, in the order of the
calls, followed by the active file hold `recs`, and the call of index `k`
(from 0) went to the name of sequence number `s + k + 1`. -/
def ConcatInv (s : Nat) (lv : Int) (l : Logger) (recs : List (List Char)) : Prop :=
  l.level = lv ∧
  ∃ h, l.osFile = some h ∧ l.fs.lookup l.stablePath = some h ∧
    h < l.fs.inodes.length ∧
    l.fileNum = ((s + l.renames.length : Nat) : Int) ∧
    (l.renames.map (fun c => c.newPath)).Nodup ∧
    (∀ c ∈ l.renames, c.ok = true ∧
      (∃ d m, m ≤ s + l.renames.length ∧
        c.newPath = l.logPath ++ ['/'] ++ rotatedName l.logFile d (m : Int)) ∧
      ∃ i, l.fs.lookup c.newPath = some i ∧ i ≠ h ∧ i < l.fs.inodes.length) ∧
    (l.renames.map (fun c => l.fs.read c.newPath)).flatten ++ l.fs.data h = recs ∧
    ∃ ds : List (List Char), l.renames.map (fun c => c.newPath) =
      ds.enum.map (fun p => l.logPath ++ ['/'] ++
        rotatedName l.logFile p.2 ((s + p.1 + 1 : Nat) : Int))

/-- The logger `loggerFresh` with the policy `MaxBytes = 1` only, two rotations
before the last positive sequence number of `int32`. -/
def loggerWrap : Logger :=
  { loggerFresh with
    method := { MaxDay := 0, MaxLines := 0, MaxBytes := 1 }
    fileNum := 2147483646 }

/-- Three Info records, each processed in the environment `envOk`. -/
def threeRecords : List (Env × LogInfo) :=
  [(envOk, { level := 1, content := "r0\n".toList }),
   (envOk, { level := 1, content := "r1\n".toList }),
   (envOk, { level := 1, content := "r2\n".toList })]

/-- The logger `loggerFresh` with minimum level Info. -/
def loggerInfo : Logger := { loggerFresh with level := 1 }

/-- What `enqueue` reads from the runtime: `time.Now()` formatted as
"2006/01/02 15:04:05" and the result of `runtime.Caller(CALL_DEPTH)`, the base
name of the file and the line, or `none` when it reports `!ok`. -/
structure CallSite where
  stamp : List Char
  caller : Option (List Char × Nat)

/-- The table `levelTag`. -/
def levelTag : List (List Char) :=
  ["D".toList, "I".toList, "W".toList, "E".toList, "P".toList, "PF".toList, "F".toList]

/-- The method `enqueue`: the record it sends on the channel. -/
def enqueue (site : CallSite) (level : Int) (content : List Char) : LogInfo :=
  if level = PRINT_LEVEL ∨ level = PRINTF_LEVEL then { level := level, content := content }
  else
    let tag := levelTag.getD level.toNat []
    let file := match site.caller with
      | none => "???".toList
      | some c => c.1
    let line := match site.caller with
      | none => 0
      | some c => c.2
    { level := level
      content := ['['] ++ site.stamp ++ "] [".toList ++ tag ++ "] [".toList ++ file ++ [':'] ++
        decimal line ++ "] ".toList ++ content ++ ['\n'] }

/-- The method `Print`. -/
def Print (site : CallSite) (content : List Char) : LogInfo :=
  enqueue site PRINT_LEVEL content

/-- The method `Printf`; `text` is the result of `fmt.Sprintf(format, v...)`. -/
def Printf (site : CallSite) (text : List Char) : LogInfo :=
  enqueue site PRINTF_LEVEL text

/-- A call site in `main.go`, line 188. -/
def siteMain : CallSite :=
  { stamp := "2026/11/04 10:00:00".toList, caller := some ("main.go".toList, 188) }

/-- The logger `loggerFresh` with minimum level Fatal. -/
def loggerFatalOnly : Logger := { loggerFresh with level := 6 }

/-- The environment `envOk` with `Write` failing. -/
def envWriteFails : Env := { envOk with writeOk := false }

/-- Size in bytes of inode `i`: the total length of the buffers written to it
(`os.FileInfo.Size()`). -/
def FileSys.size (fs : FileSys) (i : Nat) : Nat :=
  ((fs.data i).map List.length).sum

/-- Every directory entry names an existing inode. -/
def FileSys.wf (fs : FileSys) : Prop :=
  ∀ e ∈ fs.dir, e.2 < fs.inodes.length

/-- The function `NewLoggerArgs`, up to the start of the writer goroutine.
`logPath` and `logFile` are `path.Dir` and `path.Base` of the full path, which
is taken to be `logPath + "/" + logFile`; `statOk` says whether `file.Stat()`
succeeds on a valid handle and `listing` is the result of `ioutil.ReadDir`, the
names of the entries, or `none` on error. -/
def NewLoggerArgs (env : Env) (statOk : Bool) (listing : Option (List (List Char)))
    (fs : FileSys) (logPath logFile : List Char) (level : Int)
    (method : Option MoveMethod) : Logger :=
  let fullPath := logPath ++ ['/'] ++ logFile
  let opened : FileSys × Option Nat :=
    if env.openOk then ((fs.openAppend fullPath).1, some (fs.openAppend fullPath).2)
    else (fs, none)
  let out1 : List Event := if env.openOk then [] else [Event.openFileError fullPath]
  let l0 : Logger :=
    { osFile := opened.2, logFile := logFile, logPath := logPath, level := level,
      console := false, method := check method, fileExpire := 0, lines := 0, bytes := 0,
      fileNum := 0, fs := opened.1, stdout := out1, renames := [], exited := false }
  let l1 : Logger := { l0 with fileExpire := nextSplitDayUnix env l0.method.MaxDay }
  let l2 : Logger :=
    match l1.osFile with
    | some i =>
      if statOk then
        { l1 with
          bytes := (l1.fs.size i : Int)
          stdout := l1.stdout ++ [Event.bytesReport (l1.fs.size i : Int)] }
      else l1
    | none => l1
  match listing with
  | some files => { l2 with fileNum := getFileNum env l2 files }
  | none => l2

/-- The clock of a step is consistent up to `horizon` days: the current
instant is not before the epoch and lies before the coming local midnight, and
each local midnight up to the horizon comes after the one before it. -/
def Env.clockValid (env : Env) (horizon : Int) : Prop :=
  0 ≤ env.now ∧ env.now < env.localMidnight 1 ∧
    ∀ d : Int, 1 ≤ d → d < horizon → env.localMidnight d < env.localMidnight (d + 1)

/-- A logger whose policy asks for a rotation every `106751991146540` days,
a value `check` returns unchanged. -/
def loggerFarDeadline : Logger :=
  { loggerFresh with
    method := check (some { MaxDay := 106751991146540, MaxLines := 0, MaxBytes := 0 }) }

/-- The byte counter agrees with the file: the handle is the existing file at
the stable path and `bytes` is its size. -/
def BytesInv (l : Logger) : Prop :=
  ∃ h, l.osFile = some h ∧ l.fs.lookup l.stablePath = some h ∧
    h < l.fs.inodes.length ∧ l.bytes = (l.fs.size h : Int)

/-- A file system holding `/tmp/logs/app.log` with one record of ten bytes. -/
def fsOneRecord : FileSys :=
  { inodes := [["record 00\n".toList]], dir := [("/tmp/logs/app.log".toList, 0)] }

/-- The Go slice expression `s[i:]`: `none` stands for the run-time panic when
`i` is out of range. -/
def sliceFrom (s : List Char) (i : Int) : Option (List Char) :=
  if 0 ≤ i ∧ i ≤ (s.length : Int) then some (s.drop i.toNat) else none

/-- The Go slice expression `s[:j]`: `none` stands for the run-time panic when
`j` is out of range. -/
def sliceTo (s : List Char) (j : Int) : Option (List Char) :=
  if 0 ≤ j ∧ j ≤ (s.length : Int) then some (s.take j.toNat) else none

/-- The computation of `core` in `getFileNum` and `genFileName` with the slice
checked. -/
def coreNameChecked (logFile : List Char) : Option (List Char) :=
  if contains logFile LOG_SUFFIX then
    sliceTo logFile ((logFile.length : Int) - (LOG_SUFFIX.length : Int))
  else some logFile

/-- The counting loop of `genFileName` with its fuel checked: `none` when the
loop has not reached its exit after `fuel` iterations. -/
def countLoopChecked : Nat → Int → Nat → Option Nat
  | 0, num, count => if num > 0 then none else some count
  | fuel + 1, num, count =>
    if num > 0 then countLoopChecked fuel (Int.tdiv num 10) (count + 1) else some count

/-- The method `genFileName` with the loop and the slice checked. -/
def genFileNameChecked (env : Env) (l : Logger) : Option (List Char) :=
  (countLoopChecked 11 l.fileNum 0).bind (fun count =>
    let suffix :=
      if count > 3 then sprintfZeroPad count l.fileNum else sprintfZeroPad 3 l.fileNum
    (coreNameChecked l.logFile).map (fun core =>
      core ++ ['.'] ++ env.date ++ ['.'] ++ suffix ++ LOG_SUFFIX))

/-- The body of the loop of `getFileNum` with both slices checked. -/
def getFileNumStepChecked (pre : List Char) (max : Int) (name : List Char) : Option Int :=
  if contains name pre then
    (sliceFrom name (pre.length : Int)).bind (fun target =>
      if contains target LOG_SUFFIX then
        (sliceTo target ((target.length : Int) - (LOG_SUFFIX.length : Int))).map (fun t =>
          if atoi t > max then atoi t else max)
      else some max)
  else some max

/-- The loop of `getFileNum` over the entries with the slices checked. -/
def getFileNumLoopChecked (pre : List Char) : Int → List (List Char) → Option Int
  | max, [] => some max
  | max, name :: rest =>
    (getFileNumStepChecked pre max name).bind (fun m => getFileNumLoopChecked pre m rest)

/-- The method `getFileNum` with every slice checked. -/
def getFileNumChecked (env : Env) (l : Logger) (files : List (List Char)) : Option Int :=
  if files.length = 0 then some 0
  else
    (coreNameChecked l.logFile).bind (fun core =>
      (getFileNumLoopChecked (core ++ ['.'] ++ env.date ++ ['.']) 0 files).map wrap32)

/-- A logger on `/tmp/logs/app`, a name without ".log", with the policy
`MaxBytes = 1` only, freshly opened on an empty file. -/
def loggerPlainName : Logger :=
  { loggerFresh with
    logFile := "app".toList
    method := { MaxDay := 0, MaxLines := 0, MaxBytes := 1 }
    fs := { inodes := [[]], dir := [("/tmp/logs/app".toList, 0)] } }

/-- A directory listing at a restart on 2026-11-04: the active file, two
rotated files of the day, a rotated file of the day before and a file of
another program. -/
def listingRestart : List (List Char) :=
  ["app.2026-11-03.007.log".toList, "app.2026-11-04.001.log".toList,
   "app.2026-11-04.002.log".toList, "app.log".toList, "notes.txt".toList]

/-! ## Theorems -/

/-- C3 (as stated, refuted): at the instant the clock equals the stored
deadline the specification's third trigger holds, yet `needMove` is false. -/
theorem needMove_at_deadline_counterexample :
    needMoveSpec { envOk with now := 1793836800 } loggerFresh ∧
      needMove { envOk with now := 1793836800 } loggerFresh = false := by
  constructor
  · right; right; decide
  · decide

/-- C3 (amended): `needMove` is true exactly when the line count exceeds a
positive `MaxLines`, or the byte count exceeds a positive `MaxBytes`, or
`MaxDay` is positive and the clock is strictly after the stored deadline. -/
theorem needMove_iff (env : Env) (l : Logger) :
    needMove env l = true ↔
      ((l.method.MaxLines > 0 ∧ l.lines > l.method.MaxLines) ∨
        (l.method.MaxBytes > 0 ∧ l.bytes > l.method.MaxBytes) ∨
        (l.method.MaxDay > 0 ∧ env.now > l.fileExpire)) := by
  unfold needMove
  split <;> simp_all

/-- C8: `check` returns the default policy (1 day, 1,000,000 lines,
104,857,600 bytes) for a nil policy and for the all-zero policy. -/
theorem check_default :
    check none = defaultMethod ∧
      check (some { MaxDay := 0, MaxLines := 0, MaxBytes := 0 }) = defaultMethod := by
  constructor <;> decide

/-- C9: a policy that is not all-zero comes back from `check` with `MaxBytes`
replaced by `min MaxBytes 1073741824` and the other two fields unchanged, and
for every input the `MaxBytes` that `check` returns is at most 1 GiB. -/
theorem check_clamps (v : MoveMethod)
    (h : ¬(v.MaxDay = 0 ∧ v.MaxBytes = 0 ∧ v.MaxLines = 0)) :
    check (some v) = { v with MaxBytes := min v.MaxBytes 1073741824 } ∧
      ∀ o : Option MoveMethod, (check o).MaxBytes ≤ 1073741824 := by
  constructor
  · simp only [check, if_neg h, MOVE_MAX_BYTES]
    split
    · rename_i hgt
      have hgt2 : (1073741824 : Int) ≤ v.MaxBytes := by norm_num at hgt; omega
      rw [min_eq_right hgt2]
      norm_num
    · rename_i hle
      have hle2 : v.MaxBytes ≤ (1073741824 : Int) := by norm_num at hle; omega
      rw [min_eq_left hle2]
  · intro o
    cases o with
    | none => decide
    | some w =>
      simp only [check, MOVE_MAX_BYTES, MOVE_DEFAULT_BYTES]
      split
      · norm_num
      · split
        · norm_num
        · rename_i hle
          exact not_lt.mp (by simpa using hle)

/-- The 2 GiB request of C9: it is not all-zero and `check` returns 1 GiB. -/
theorem check_clamps_witness :
    ¬((1 : Int) = 0 ∧ (2147483648 : Int) = 0 ∧ (5 : Int) = 0) ∧
      (check (some { MaxDay := 1, MaxLines := 5, MaxBytes := 2147483648 }) =
          { MaxDay := 1, MaxLines := 5, MaxBytes := min 2147483648 1073741824 } ∧
        ∀ o : Option MoveMethod, (check o).MaxBytes ≤ 1073741824) :=
  ⟨by decide, check_clamps { MaxDay := 1, MaxLines := 5, MaxBytes := 2147483648 } (by decide)⟩

/-! ### Strings and decimal digits -/

theorem contains_iff (s sub : List Char) :
    contains s sub = true ↔ ∃ a b, s = a ++ sub ++ b := by
  unfold contains
  rw [List.any_eq_true]
  constructor
  · rintro ⟨t, ht, hp⟩
    rw [List.mem_tails] at ht
    rw [List.isPrefixOf_iff_prefix] at hp
    obtain ⟨a, rfl⟩ := ht
    obtain ⟨b, rfl⟩ := hp
    exact ⟨a, b, by simp⟩
  · rintro ⟨a, b, rfl⟩
    refine ⟨sub ++ b, ?_, ?_⟩
    · rw [List.mem_tails]; exact ⟨a, by simp⟩
    · rw [List.isPrefixOf_iff_prefix]; exact ⟨b, rfl⟩

theorem coreName_log (stem : List Char) : coreName (stem ++ LOG_SUFFIX) = stem := by
  have h : contains (stem ++ LOG_SUFFIX) LOG_SUFFIX = true :=
    (contains_iff _ _).2 ⟨stem, [], by simp⟩
  simp [coreName, h]

theorem toDigitsCore_append (f n : Nat) (ds : List Char) :
    Nat.toDigitsCore 10 f n ds = Nat.toDigitsCore 10 f n [] ++ ds := by
  induction f generalizing n ds with
  | zero => simp [Nat.toDigitsCore]
  | succ k ih =>
    simp only [Nat.toDigitsCore]
    split
    · simp
    · rw [ih, ih (n / 10) [_]]; simp

theorem toDigitsCore_fuel (f g n : Nat) (ds : List Char) (hf : n < f) (hg : n < g) :
    Nat.toDigitsCore 10 f n ds = Nat.toDigitsCore 10 g n ds := by
  induction f generalizing g n ds with
  | zero => omega
  | succ k ih =>
    cases g with
    | zero => omega
    | succ j =>
      simp only [Nat.toDigitsCore]
      split
      · rfl
      · rename_i hne
        apply ih <;> omega

theorem decimal_small (n : Nat) (h : n < 10) : decimal n = [Nat.digitChar n] := by
  have h0 : n / 10 = 0 := by omega
  have h1 : n % 10 = n := by omega
  simp [decimal, Nat.toDigits, Nat.toDigitsCore, h0, h1]

theorem decimal_step (n : Nat) (h : 10 ≤ n) :
    decimal n = decimal (n / 10) ++ [Nat.digitChar (n % 10)] := by
  have h0 : n / 10 ≠ 0 := by omega
  unfold decimal Nat.toDigits
  rw [Nat.toDigitsCore]
  simp only [h0, if_false]
  rw [toDigitsCore_append, toDigitsCore_fuel n (n / 10 + 1) (n / 10) [] (by omega) (by omega)]

theorem decimal_length_pos (n : Nat) : 0 < (decimal n).length := by
  by_cases h : n < 10
  · rw [decimal_small n h]; simp
  · rw [decimal_step n (by omega)]; simp

theorem countLoop_eq (f n c : Nat) (h : n < 10 ^ f) :
    countLoop f (n : Int) c = c + (if n = 0 then 0 else (decimal n).length) := by
  induction f generalizing n c with
  | zero =>
    have : n = 0 := by simpa using h
    subst this; simp [countLoop]
  | succ k ih =>
    unfold countLoop
    by_cases hn : n = 0
    · subst hn; simp
    · have hpos : (n : Int) > 0 := by omega
      have hdiv : Int.tdiv (n : Int) 10 = ((n / 10 : Nat) : Int) := by
        rw [Int.tdiv_eq_ediv (by omega) (by decide)]; rfl
      rw [if_pos hpos, hdiv, ih (n / 10) (c + 1) (by rw [pow_succ] at h; omega)]
      simp only [hn, if_false]
      by_cases hlt : n < 10
      · have h0 : n / 10 = 0 := by omega
        rw [decimal_small n hlt]; simp [h0]
      · have h0 : n / 10 ≠ 0 := by omega
        rw [decimal_step n (by omega)]; simp [h0]; omega

theorem rotatedName_format (stem date : List Char) (n : Nat) (hn : n < 2 ^ 31) :
    rotatedName (stem ++ ['.', 'l', 'o', 'g']) date (n : Int) =
      stem ++ ['.'] ++ date ++ ['.'] ++
        zeroPad (max 3 (decimal n).length) (decimal n) ++ ['.', 'l', 'o', 'g'] := by
  have hcore : coreName (stem ++ ['.', 'l', 'o', 'g']) = stem := coreName_log stem
  have hcount := countLoop_eq 11 n 0 (by omega)
  have hlen := decimal_length_pos n
  have hsp : ∀ w, sprintfZeroPad w (n : Int) = zeroPad w (decimal n) := by
    intro w; simp [sprintfZeroPad]
  simp only [rotatedName, hcore, hcount, hsp, LOG_SUFFIX, Nat.zero_add]
  congr 2
  by_cases h0 : n = 0
  · subst h0
    simp only [if_true]
    have : (decimal 0).length = 1 := by decide
    simp [this]
  · simp only [h0, if_false]
    by_cases h3 : (decimal n).length > 3
    · rw [if_pos h3, max_eq_right (by omega)]
    · rw [if_neg h3, max_eq_left (by omega)]

/-- C7: for a sequence number `n` in `0 ≤ n < 2 ^ 31` and an active file name
`stem ++ ".log"`, `genFileName` is `stem ++ "." ++ date ++ "." ++ seq ++ ".log"`
where `seq` is the decimal form of `n` zero-padded on the left to width
`max 3 (number of digits of n)`. -/
theorem genFileName_format (env : Env) (l : Logger) (stem : List Char) (n : Nat)
    (hn : n < 2 ^ 31) (hfile : l.logFile = stem ++ ['.', 'l', 'o', 'g'])
    (hnum : l.fileNum = (n : Int)) :
    genFileName env l =
      stem ++ ['.'] ++ env.date ++ ['.'] ++
        zeroPad (max 3 (decimal n).length) (decimal n) ++ ['.', 'l', 'o', 'g'] := by
  rw [genFileName, hfile, hnum]
  exact rotatedName_format stem env.date n hn

/-- The examples of C7: sequence number 7 gives `007`, 1234 gives `1234`. -/
theorem genFileName_format_witness :
    genFileName envOk { loggerFresh with fileNum := 7 } = "app.2026-11-04.007.log".toList ∧
      genFileName envOk { loggerFresh with fileNum := 1234 } =
        "app.2026-11-04.1234.log".toList := by
  constructor
  · rw [genFileName_format envOk { loggerFresh with fileNum := 7 } "app".toList 7
      (by decide) (by decide) (by decide)]
    decide
  · rw [genFileName_format envOk { loggerFresh with fileNum := 1234 } "app".toList 1234
      (by decide) (by decide) (by decide)]
    decide

/-! ### Recovery of the sequence number -/

/-- C6 (failing input): with active file `app.log` on 2026-11-04, the single
entry `webapp.2026-11-04.log`, which does not start with `app.2026-11-04.`,
makes `getFileNum` return 4. -/
theorem getFileNum_foreign_entry :
    getFileNum envOk loggerFresh ["webapp.2026-11-04.log".toList] = 4 ∧
      List.isPrefixOf "app.2026-11-04.".toList "webapp.2026-11-04.log".toList = false := by
  decide

/-! ### Rotation when the rename fails -/

/-- C4 (as stated, refuted): a rotation is triggered with four lines and forty
bytes counted and the rename fails; the handle is the old one, but both
counters are 0 after `move`, and the next record leaves them at 1 and 10. -/
theorem move_rename_fails_counterexample :
    needMove envRenameFails loggerFull = true ∧
      (move envRenameFails loggerFull).osFile = loggerFull.osFile ∧
      loggerFull.lines = 4 ∧ (move envRenameFails loggerFull).lines = 0 ∧
      loggerFull.bytes = 40 ∧ (move envRenameFails loggerFull).bytes = 0 ∧
      (sprintf envRenameFails 1 "record 04\n".toList loggerFull).lines = 1 ∧
      (sprintf envRenameFails 1 "record 04\n".toList loggerFull).bytes = 10 := by
  decide

/-! ### The two halves of the writer step -/

theorem writeRecord_filtered (env : Env) (level : Int) (content : List Char) (l : Logger)
    (hlev : level < l.level) : writeRecord env level content l = l := by
  simp [writeRecord, hlev]

theorem writeRecord_file (env : Env) (level : Int) (content : List Char) (l : Logger)
    (h : Nat) (hh : l.osFile = some h) (hlev : ¬ level < l.level) :
    writeRecord env level content l =
      { l with
        stdout := if l.console then l.stdout ++ [Event.print content] else l.stdout
        lines := wrap32 (l.lines + 1)
        bytes := wrap64 (l.bytes + content.length)
        fs := if env.writeOk then l.fs.write h content else l.fs
        exited := if level = FATAL_LEVEL then true else l.exited } := by
  unfold writeRecord
  simp only [hlev, if_false]
  by_cases hc : l.console = true <;> by_cases hf : level = FATAL_LEVEL <;>
    simp [hc, hf, hh]

theorem move_rename_failed (env : Env) (l : Logger)
    (hfail : osRename env l.fs (l.logPath ++ ['/'] ++ l.logFile) = none) :
    move env l =
      { l with
        lines := 0, bytes := 0, fileNum := wrap32 (l.fileNum + 1),
        fileExpire := nextSplitDayUnix env l.method.MaxDay,
        renames := l.renames ++
          [{ oldPath := l.logPath ++ ['/'] ++ l.logFile,
             newPath := l.logPath ++ ['/'] ++ genFileName env
               { l with lines := 0, bytes := 0, fileNum := wrap32 (l.fileNum + 1),
                        fileExpire := nextSplitDayUnix env l.method.MaxDay },
             ok := false }],
        stdout := l.stdout ++
          [Event.renameError (l.logPath ++ ['/'] ++ l.logFile)
            (l.logPath ++ ['/'] ++ genFileName env
               { l with lines := 0, bytes := 0, fileNum := wrap32 (l.fileNum + 1),
                        fileExpire := nextSplitDayUnix env l.method.MaxDay })] } := by
  simp only [move, hfail]

/-- C4 (amended): when the rename of a triggered rotation fails, `move` keeps
the handle and the file system, but has already set both counters to 0,
incremented the sequence number and recomputed the deadline; a record at or
above the minimum level processed at such a step is appended to the file of
the old handle and the counters become 1 and its length. -/
theorem move_rename_fails (env : Env) (l : Logger)
    (hfail : osRename env l.fs (l.logPath ++ ['/'] ++ l.logFile) = none) :
    ((move env l).osFile = l.osFile ∧ (move env l).fs = l.fs ∧
        (move env l).lines = 0 ∧ (move env l).bytes = 0 ∧
        (move env l).fileNum = wrap32 (l.fileNum + 1) ∧
        (move env l).fileExpire = nextSplitDayUnix env l.method.MaxDay) ∧
      ∀ (level : Int) (content : List Char) (h : Nat),
        needMove env l = true → l.osFile = some h → ¬ level < l.level →
        env.writeOk = true →
          (sprintf env level content l).osFile = some h ∧
          (sprintf env level content l).fs = l.fs.write h content ∧
          (sprintf env level content l).lines = 1 ∧
          (sprintf env level content l).bytes = wrap64 content.length := by
  have hm := move_rename_failed env l hfail
  refine ⟨by rw [hm]; simp, ?_⟩
  intro level content h hneed hh hlev hw
  have h1 : wrap32 1 = 1 := by decide
  have hh2 : (move env l).osFile = some h := by rw [hm]; exact hh
  have hlev2 : ¬ level < (move env l).level := by rw [hm]; exact hlev
  simp only [sprintf, hneed, if_true]
  rw [writeRecord_file env level content (move env l) h hh2 hlev2]
  rw [hm]
  simp [h1, hw, hh]

/-- An instance of C4: the logger `loggerFull` when the rename fails. -/
theorem move_rename_fails_witness :
    osRename envRenameFails loggerFull.fs (loggerFull.logPath ++ ['/'] ++ loggerFull.logFile)
        = none ∧
      (move envRenameFails loggerFull).osFile = loggerFull.osFile ∧
      (move envRenameFails loggerFull).lines = 0 :=
  ⟨by decide,
    (move_rename_fails envRenameFails loggerFull (by decide)).1.1,
    (move_rename_fails envRenameFails loggerFull (by decide)).1.2.2.1⟩

/-! ### What `move` never changes -/

theorem move_keeps (env : Env) (l : Logger) :
    (move env l).level = l.level ∧ (move env l).console = l.console ∧
      (move env l).logFile = l.logFile ∧ (move env l).logPath = l.logPath ∧
      (move env l).method = l.method ∧ (move env l).exited = l.exited := by
  unfold move
  simp only []
  split
  · simp
  · split <;> simp

theorem openAppend_data (fs : FileSys) (path : List Char) (i : Nat) :
    (fs.openAppend path).1.data i = fs.data i := by
  unfold FileSys.openAppend
  split
  · rfl
  · simp only [FileSys.data]
    by_cases h : i < fs.inodes.length
    · simp [List.getD_eq_getElem?_getD, List.getElem?_append_left h]
    · have h2 : fs.inodes.length ≤ i := by omega
      rw [List.getD_eq_getElem?_getD, List.getD_eq_getElem?_getD,
        List.getElem?_eq_none h2]
      by_cases h3 : i = fs.inodes.length
      · subst h3; simp
      · rw [List.getElem?_eq_none (by simp; omega)]

theorem move_data (env : Env) (l : Logger) (i : Nat) :
    (move env l).fs.data i = l.fs.data i := by
  unfold move
  simp only []
  split
  · rfl
  · split
    · simp only [openAppend_data]; rfl
    · rfl

/-- An output event is a diagnostic of `move`, not a printed record. -/
theorem move_stdout (env : Env) (l : Logger) :
    ∃ d, (move env l).stdout = l.stdout ++ d ∧ ∀ e ∈ d, ∀ c, e ≠ Event.print c := by
  unfold move
  simp only []
  split
  · exact ⟨[_], rfl, by simp⟩
  · split
    · by_cases hs : l.osFile.isSome = true
      · exact ⟨[], by simp [hs], by simp⟩
      · exact ⟨[Event.osfileNil], by simp [hs], by simp⟩
    · exact ⟨[_], rfl, by simp⟩

/-! ### Records below the minimum level -/

/-- C10 (as stated, refuted): a Debug record reaches a logger whose minimum
level is Info at a step where a rotation is due and the rename fails; the step
prints the rename diagnostic of `move` to standard output. -/
theorem sprintf_filtered_counterexample :
    DEBUG_LEVEL < loggerFullInfo.level ∧ loggerFullInfo.stdout = [] ∧
      (sprintf envRenameFails DEBUG_LEVEL "dropped\n".toList loggerFullInfo).stdout =
        [Event.renameError "/tmp/logs/app.log".toList
          "/tmp/logs/app.2026-11-04.001.log".toList] := by
  decide

/-- C10 (amended): for a record below the minimum level, with the console on or
off and the handle valid or nil, `sprintf` writes no buffer to any file and
prints no record; what it appends to standard output can only be a diagnostic
of `move`, and when no rotation is due the step changes nothing at all. -/
theorem sprintf_filtered (env : Env) (level : Int) (content : List Char) (l : Logger)
    (hlev : level < l.level) :
    (∀ i, (sprintf env level content l).fs.data i = l.fs.data i) ∧
      (∃ d, (sprintf env level content l).stdout = l.stdout ++ d ∧
        ∀ e ∈ d, ∀ c, e ≠ Event.print c) ∧
      (needMove env l = false → sprintf env level content l = l) := by
  unfold sprintf
  by_cases hneed : needMove env l = true
  · have hlev2 : level < (move env l).level := by rw [(move_keeps env l).1]; exact hlev
    simp only [hneed, if_true, writeRecord_filtered env level content _ hlev2]
    exact ⟨move_data env l, move_stdout env l, by simp⟩
  · have hneed2 : needMove env l = false := by simpa using hneed
    have hw := writeRecord_filtered env level content l hlev
    simp only [hneed2, Bool.false_eq_true, if_false, hw]
    exact ⟨fun _ => trivial, ⟨[], by simp, by simp⟩, fun _ => trivial⟩

/-- An instance of C10: a Debug record against minimum level Info with the
console on and no rotation due leaves the logger as it was. -/
theorem sprintf_filtered_witness :
    DEBUG_LEVEL < ({ loggerFresh with level := 1, console := true } : Logger).level ∧
      sprintf envOk DEBUG_LEVEL "dropped\n".toList
          { loggerFresh with level := 1, console := true } =
        { loggerFresh with level := 1, console := true } :=
  ⟨by decide,
    (sprintf_filtered envOk DEBUG_LEVEL "dropped\n".toList
      { loggerFresh with level := 1, console := true } (by decide)).2.2 (by decide)⟩

/-! ### Sequence numbers along a run -/

theorem wrap32_id (a : Int) (h0 : -2147483648 ≤ a) (h1 : a < 2147483648) : wrap32 a = a := by
  simp only [wrap32]
  norm_num
  omega

theorem writeRecord_keeps (env : Env) (level : Int) (content : List Char) (l : Logger) :
    (writeRecord env level content l).renames = l.renames ∧
      (writeRecord env level content l).fileNum = l.fileNum ∧
      (writeRecord env level content l).logFile = l.logFile ∧
      (writeRecord env level content l).logPath = l.logPath ∧
      (writeRecord env level content l).method = l.method ∧
      (writeRecord env level content l).level = l.level ∧
      (writeRecord env level content l).console = l.console ∧
      (writeRecord env level content l).osFile = l.osFile ∧
      (writeRecord env level content l).fileExpire = l.fileExpire := by
  unfold writeRecord
  by_cases hlev : level < l.level
  · simp [hlev]
  · simp only [hlev, if_false]
    cases ho : l.osFile <;> by_cases hc : l.console = true <;>
      by_cases hf : level = FATAL_LEVEL <;> simp [ho, hc, hf]

theorem move_renames (env : Env) (l : Logger) :
    (move env l).fileNum = wrap32 (l.fileNum + 1) ∧
      ∃ ok, (move env l).renames = l.renames ++
        [{ oldPath := l.logPath ++ ['/'] ++ l.logFile,
           newPath := l.logPath ++ ['/'] ++
             rotatedName l.logFile env.date (wrap32 (l.fileNum + 1)),
           ok := ok }] := by
  unfold move
  simp only [genFileName]
  split
  · exact ⟨rfl, false, rfl⟩
  · split
    · exact ⟨rfl, true, rfl⟩
    · exact ⟨rfl, true, rfl⟩

theorem wrap32_add (a b : Int) : wrap32 (wrap32 a + b) = wrap32 (a + b) := by
  simp only [wrap32]
  norm_num
  omega

theorem wrap32_range (a : Int) : -2147483648 ≤ wrap32 a ∧ wrap32 a < 2147483648 := by
  simp only [wrap32]
  norm_num
  omega

/-- One writer step either makes no rename and keeps the sequence number, or
makes one rename to the name of the next sequence number. -/
theorem sprintf_renames (env : Env) (level : Int) (content : List Char) (l : Logger) :
    (sprintf env level content l).logFile = l.logFile ∧
      (sprintf env level content l).logPath = l.logPath ∧
      (((sprintf env level content l).fileNum = l.fileNum ∧
          (sprintf env level content l).renames = l.renames) ∨
        ((sprintf env level content l).fileNum = wrap32 (l.fileNum + 1) ∧
          ∃ ok, (sprintf env level content l).renames = l.renames ++
            [{ oldPath := l.logPath ++ ['/'] ++ l.logFile,
               newPath := l.logPath ++ ['/'] ++
                 rotatedName l.logFile env.date (wrap32 (l.fileNum + 1)),
               ok := ok }])) := by
  unfold sprintf
  by_cases hneed : needMove env l = true
  · simp only [hneed, if_true]
    have hk := writeRecord_keeps env level content (move env l)
    have hm := move_keeps env l
    have hr := move_renames env l
    refine ⟨by rw [hk.2.2.1, hm.2.2.1], by rw [hk.2.2.2.1, hm.2.2.2.1], Or.inr ?_⟩
    rw [hk.1, hk.2.1]
    exact hr
  · have hneed2 : needMove env l = false := by simpa using hneed
    simp only [hneed2, Bool.false_eq_true, if_false]
    have hk := writeRecord_keeps env level content l
    exact ⟨hk.2.2.1, hk.2.2.2.1, Or.inl ⟨hk.2.1, hk.1⟩⟩

/-- Along a run on one calendar day the rename calls target, in order, the
names of the sequence numbers that follow the initial one. -/
theorem serve_renames (d : List Char) (steps : List (Env × LogInfo)) :
    ∀ l : Logger, (∀ e ∈ steps, e.1.date = d) →
      -2147483648 ≤ l.fileNum → l.fileNum < 2147483648 →
      ∃ K : Nat,
        (serve steps l).fileNum = wrap32 (l.fileNum + K) ∧
        (serve steps l).renames.map (fun c => c.newPath) =
          l.renames.map (fun c => c.newPath) ++
            (List.range K).map (fun k => l.logPath ++ ['/'] ++
              rotatedName l.logFile d (wrap32 (l.fileNum + (k + 1 : Nat)))) := by
  induction steps with
  | nil =>
    intro l _ h0 h1
    exact ⟨0, by simp [serve, wrap32_id l.fileNum h0 h1], by simp [serve]⟩
  | cons st rest ih =>
    intro l hd h0 h1
    obtain ⟨env, info⟩ := st
    have hde : env.date = d := hd (env, info) (by simp)
    have hdr : ∀ e ∈ rest, e.1.date = d := fun e he => hd e (by simp [he])
    obtain ⟨hlf, hlp, hcase⟩ := sprintf_renames env info.level info.content l
    -- the state after this step, as a run of zero or one rotation
    have hone : ∃ K1 : Nat,
        (sprintf env info.level info.content l).fileNum = wrap32 (l.fileNum + K1) ∧
        (sprintf env info.level info.content l).renames.map (fun c => c.newPath) =
          l.renames.map (fun c => c.newPath) ++
            (List.range K1).map (fun k => l.logPath ++ ['/'] ++
              rotatedName l.logFile d (wrap32 (l.fileNum + (k + 1 : Nat)))) := by
      rcases hcase with ⟨hn, hr⟩ | ⟨hn, ok, hr⟩
      · exact ⟨0, by simp [hn, wrap32_id l.fileNum h0 h1], by simp [hr]⟩
      · exact ⟨1, by simp [hn], by simp [hr, hde, List.range_succ]⟩
    obtain ⟨K1, hf1, hr1⟩ := hone
    simp only [serve]
    split
    · exact ⟨K1, hf1, hr1⟩
    · have hrange := wrap32_range (l.fileNum + K1)
      obtain ⟨K2, hf2, hr2⟩ := ih (sprintf env info.level info.content l) hdr
        (by rw [hf1]; exact hrange.1) (by rw [hf1]; exact hrange.2)
      refine ⟨K1 + K2, ?_, ?_⟩
      · rw [hf2, hf1, wrap32_add]; congr 1; push_cast; ring
      · rw [hr2, hr1, hlf, hlp, hf1, List.range_add, List.map_append, List.append_assoc]
        congr 2
        simp only [List.map_map]
        apply List.map_congr_left
        intro k _
        simp only [Function.comp]
        rw [wrap32_add]
        congr 3
        push_cast; ring

/-- C5 (as stated, refuted): from sequence number `s = 2147483647` the first
rotation renames the active file to the name carrying `-2147483648`, not
`s + 1`. -/
theorem rotation_sequence_counterexample :
    loggerLast.fileNum = 2147483647 ∧
      (sprintf envOk 1 "record 04\n".toList loggerLast).fileNum = -2147483648 ∧
      (sprintf envOk 1 "record 04\n".toList loggerLast).renames =
        [{ oldPath := "/tmp/logs/app.log".toList,
           newPath := "/tmp/logs/app.2026-11-04.-2147483648.log".toList,
           ok := true }] := by
  decide

/-! ### The file system operations -/

theorem find?_agree {α : Type} (p q : α → Bool) (xs : List α)
    (h : ∀ x ∈ xs, p x = q x) : xs.find? p = xs.find? q := by
  induction xs with
  | nil => rfl
  | cons x rest ih =>
    simp only [List.find?_cons, h x (by simp)]
    rw [ih (fun y hy => h y (by simp [hy]))]

theorem lookup_rename (fs : FileSys) (old new p : List Char) (i : Nat) :
    (fs.rename old new i).lookup p =
      if p = new then some i else if p = old then none else fs.lookup p := by
  unfold FileSys.lookup FileSys.rename
  simp only [List.find?_cons]
  by_cases hn : p = new
  · subst hn; simp
  · have hn2 : ¬ new = p := fun h => hn h.symm
    simp only [hn, hn2, decide_False, if_false, List.find?_filter]
    by_cases ho : p = old
    · subst ho
      simp only [if_true]
      rw [Option.map_eq_none', List.find?_eq_none]
      intro e _
      simp only [ne_eq, decide_not, Bool.decide_and, Bool.and_eq_true, Bool.not_eq_true',
        decide_eq_false_iff_not, decide_eq_true_eq, not_and, not_not]
      tauto
    · simp only [ho, if_false]
      congr 1
      apply find?_agree
      intro e _
      by_cases he : e.1 = p
      · simp [he, ho, hn]
      · simp [he]

theorem lookup_openAppend_new (fs : FileSys) (path p : List Char)
    (habs : fs.lookup path = none) :
    (fs.openAppend path).2 = fs.inodes.length ∧
      (fs.openAppend path).1.inodes = fs.inodes ++ [[]] ∧
      (fs.openAppend path).1.lookup p =
        if p = path then some fs.inodes.length else fs.lookup p := by
  have ho : fs.openAppend path =
      ({ inodes := fs.inodes ++ [[]], dir := (path, fs.inodes.length) :: fs.dir },
        fs.inodes.length) := by
    simp only [FileSys.openAppend, habs]
  rw [ho]
  refine ⟨rfl, rfl, ?_⟩
  unfold FileSys.lookup
  simp only [List.find?_cons]
  by_cases hp : p = path
  · subst hp; simp
  · have hp2 : ¬ path = p := fun h => hp h.symm
    simp [hp, hp2]

theorem data_write (fs : FileSys) (h i : Nat) (c : List Char) (hh : h < fs.inodes.length) :
    (fs.write h c).data i = if i = h then fs.data h ++ [c] else fs.data i := by
  unfold FileSys.write FileSys.data
  simp only [List.getD_eq_getElem?_getD, List.getElem?_modify]
  by_cases hi : i = h
  · subst hi
    simp [List.getElem?_eq_getElem hh]
  · have hi2 : ¬ h = i := fun e => hi e.symm
    simp [hi, hi2]

theorem lookup_write (fs : FileSys) (h : Nat) (c p : List Char) :
    (fs.write h c).lookup p = fs.lookup p := rfl

theorem inodes_length_write (fs : FileSys) (h : Nat) (c : List Char) :
    (fs.write h c).inodes.length = fs.inodes.length := by
  simp [FileSys.write]

/-! ### A rotation that succeeds -/

theorem coreName_length (logFile : List Char) :
    logFile.length ≤ (coreName logFile).length + 4 := by
  unfold coreName
  split
  · simp [LOG_SUFFIX]; omega
  · omega

theorem rotatedName_ne (logFile date : List Char) (n : Int) :
    rotatedName logFile date n ≠ logFile := by
  intro h
  have hl := congrArg List.length h
  have hc := coreName_length logFile
  simp only [rotatedName, List.length_append, LOG_SUFFIX, List.length_cons, List.length_nil] at hl
  omega

theorem rotatedPath_ne (logPath logFile date : List Char) (n : Int) :
    logPath ++ ['/'] ++ rotatedName logFile date n ≠ logPath ++ ['/'] ++ logFile := by
  intro h
  exact rotatedName_ne logFile date n (List.append_cancel_left h)

theorem move_ok (env : Env) (l : Logger) (h : Nat) (hr : env.renameOk = true)
    (ho : env.openOk = true)
    (hl : l.fs.lookup (l.logPath ++ ['/'] ++ l.logFile) = some h) :
    (move env l).osFile = some l.fs.inodes.length ∧
      (move env l).fs.inodes = l.fs.inodes ++ [[]] ∧
      (∀ p, (move env l).fs.lookup p =
        if p = l.logPath ++ ['/'] ++ l.logFile then some l.fs.inodes.length
        else if p = l.logPath ++ ['/'] ++
            rotatedName l.logFile env.date (wrap32 (l.fileNum + 1)) then some h
        else l.fs.lookup p) ∧
      (move env l).lines = 0 ∧ (move env l).bytes = 0 ∧
      (move env l).renames = l.renames ++
        [{ oldPath := l.logPath ++ ['/'] ++ l.logFile,
           newPath := l.logPath ++ ['/'] ++
             rotatedName l.logFile env.date (wrap32 (l.fileNum + 1)),
           ok := true }] := by
  have hne := rotatedPath_ne l.logPath l.logFile env.date (wrap32 (l.fileNum + 1))
  have habs : (l.fs.rename (l.logPath ++ ['/'] ++ l.logFile)
      (l.logPath ++ ['/'] ++ rotatedName l.logFile env.date (wrap32 (l.fileNum + 1))) h).lookup
        (l.logPath ++ ['/'] ++ l.logFile) = none := by
    rw [lookup_rename, if_neg (Ne.symm hne), if_pos rfl]
  have hm : move env l =
      { l with
        lines := 0, bytes := 0, fileNum := wrap32 (l.fileNum + 1),
        fileExpire := nextSplitDayUnix env l.method.MaxDay,
        renames := l.renames ++
          [{ oldPath := l.logPath ++ ['/'] ++ l.logFile,
             newPath := l.logPath ++ ['/'] ++
               rotatedName l.logFile env.date (wrap32 (l.fileNum + 1)),
             ok := true }],
        fs := ((l.fs.rename (l.logPath ++ ['/'] ++ l.logFile)
          (l.logPath ++ ['/'] ++ rotatedName l.logFile env.date (wrap32 (l.fileNum + 1)))
            h).openAppend (l.logPath ++ ['/'] ++ l.logFile)).1,
        stdout := if l.osFile.isSome then l.stdout else l.stdout ++ [Event.osfileNil],
        osFile := some ((l.fs.rename (l.logPath ++ ['/'] ++ l.logFile)
          (l.logPath ++ ['/'] ++ rotatedName l.logFile env.date (wrap32 (l.fileNum + 1)))
            h).openAppend (l.logPath ++ ['/'] ++ l.logFile)).2 } := by
    simp only [move, osRename, hr, if_true, hl, ho, genFileName]
  have hopen := fun p => lookup_openAppend_new _ _ p habs
  rw [hm]
  refine ⟨?_, ?_, ?_, rfl, rfl, rfl⟩
  · simp only [(hopen []).1]; rfl
  · simp only [(hopen []).2.1]; rfl
  · intro p
    simp only [(hopen p).2.2, lookup_rename]
    by_cases hp : p = l.logPath ++ ['/'] ++ l.logFile
    · simp only [hp, if_true]; rfl
    · simp only [hp, if_false]

/-! ### Rotation by line count -/

/-- The fields after a record is written through a valid handle, when the
write succeeds. -/
theorem writeRecord_fields (env : Env) (level : Int) (content : List Char) (l : Logger)
    (h : Nat) (hh : l.osFile = some h) (hlev : ¬ level < l.level)
    (hw : env.writeOk = true) :
    (writeRecord env level content l).fs = l.fs.write h content ∧
      (writeRecord env level content l).lines = wrap32 (l.lines + 1) ∧
      (writeRecord env level content l).exited =
        (if level = FATAL_LEVEL then true else l.exited) ∧
      (writeRecord env level content l).stablePath = l.stablePath := by
  rw [writeRecord_file env level content l h hh hlev]
  simp [hw, Logger.stablePath]

theorem needMove_lines (env : Env) (l : Logger) (L : Nat)
    (hm : l.method = { MaxDay := 0, MaxLines := (L : Int), MaxBytes := 0 }) (hL : 0 < L) :
    needMove env l = true ↔ (L : Int) < l.lines := by
  unfold needMove
  rw [hm]
  simp only [gt_iff_lt, lt_self_iff_false, false_and, or_false]
  constructor
  · intro h
    split at h
    · rename_i hc; exact hc.2
    · exact absurd h (by simp)
  · intro h
    have : (0 : Int) < L := by omega
    simp [this, h]


theorem linesInv_step (L : Nat) (hL : 0 < L) (hL2 : L < 2 ^ 31 - 1) (env : Env)
    (level : Int) (content : List Char) (l : Logger) (n : Nat)
    (hok : env.allOk) (hlev : 0 ≤ level) (hinv : LinesInv L l n) :
    LinesInv L (sprintf env level content l) (n + 1) := by
  obtain ⟨hm, hlv, h, hos, hlk, hh, hlines, hle, hpos, hn, hren⟩ := hinv
  obtain ⟨hro, hoo, hwo⟩ := hok
  have hnl : ¬ level < l.level := by rw [hlv]; simp only [DEBUG_LEVEL]; omega
  unfold sprintf
  by_cases hneed : needMove env l = true
  · -- the active file holds `L + 1` records: it is rotated first
    have hfull : (l.fs.data h).length = L + 1 := by
      have := (needMove_lines env l L hm hL).1 hneed
      omega
    obtain ⟨mos, min, mlk, mli, mby, mre⟩ := move_ok env l h hro hoo hlk
    obtain ⟨klv, kco, klf, klp, kme, kex⟩ := move_keeps env l
    have hnl2 : ¬ level < (move env l).level := by rw [klv]; exact hnl
    have msp : (move env l).stablePath = l.stablePath := by
      simp only [Logger.stablePath, klf, klp]
    simp only [hneed, if_true]
    obtain ⟨kren, -, -, -, kmeth, klev, -, kos, -⟩ :=
      writeRecord_keeps env level content (move env l)
    obtain ⟨ffs, flines, fex, fsp⟩ :=
      writeRecord_fields env level content (move env l) _ mos hnl2 hwo
    unfold LinesInv
    simp only [Logger.stablePath] at fsp msp hlk hren ⊢
    rw [klf, klp] at fsp
    have hlen : l.fs.inodes.length < (move env l).fs.inodes.length := by
      rw [min]; simp
    have hdnew : ((move env l).fs.write l.fs.inodes.length content).data l.fs.inodes.length
        = [content] := by
      rw [data_write _ _ _ _ hlen, if_pos rfl, move_data]; simp [FileSys.data]
    have hdold : ∀ i, i < l.fs.inodes.length →
        ((move env l).fs.write l.fs.inodes.length content).data i = l.fs.data i := by
      intro i hi
      rw [data_write _ _ _ _ hlen, if_neg (by omega), move_data]
    refine ⟨by rw [kmeth, kme, hm], by rw [klev, klv, hlv],
      l.fs.inodes.length, by rw [kos, mos], ?_, ?_, ?_, ?_, ?_, ?_, ?_⟩
    · rw [fsp, ffs, lookup_write, mlk, if_pos rfl]
    · rw [ffs, inodes_length_write]; exact hlen
    · rw [ffs, flines, hdnew, mli]
      have h1 : wrap32 (0 + 1) = 1 := by decide
      rw [h1]; rfl
    · rw [ffs, hdnew]; simp
    · intro _; rw [ffs, hdnew]; simp
    · rw [ffs, hdnew, kren, mre]
      simp only [List.length_append, List.length_singleton]
      rw [hn, hfull]; ring
    · intro c hc
      rw [fsp, ffs, inodes_length_write]
      simp only [lookup_write]
      rw [kren, mre] at hc
      simp only [List.mem_append, List.mem_singleton] at hc
      rcases hc with hc | hc
      · obtain ⟨cok, cne, i, ilk, ine, ilt, ilen⟩ := hren c hc
        refine ⟨cok, cne, ?_⟩
        rw [mlk, if_neg cne]
        by_cases hcn : c.newPath = l.logPath ++ ['/'] ++
            rotatedName l.logFile env.date (wrap32 (l.fileNum + 1))
        · rw [if_pos hcn]
          exact ⟨h, rfl, by omega, by omega, by rw [hdold h hh]; exact hfull⟩
        · rw [if_neg hcn]
          exact ⟨i, ilk, by omega, by omega, by rw [hdold i ilt]; exact ilen⟩
      · subst hc
        refine ⟨rfl, rotatedPath_ne _ _ _ _, h, ?_, by omega, by omega, ?_⟩
        · rw [mlk, if_neg (rotatedPath_ne _ _ _ _), if_pos rfl]
        · rw [hdold h hh]; exact hfull
  · -- no rotation: the record joins the active file
    have hnot : ¬ (L : Int) < l.lines := fun hc => hneed ((needMove_lines env l L hm hL).2 hc)
    have hroom : (l.fs.data h).length ≤ L := by omega
    have hneed2 : needMove env l = false := by simpa using hneed
    simp only [hneed2, Bool.false_eq_true, if_false]
    obtain ⟨kren, -, -, -, kmeth, klev, -, kos, -⟩ := writeRecord_keeps env level content l
    obtain ⟨ffs, flines, fex, fsp⟩ := writeRecord_fields env level content l h hos hnl hwo
    unfold LinesInv
    simp only [Logger.stablePath] at fsp hlk hren ⊢
    have hdh : (l.fs.write h content).data h = l.fs.data h ++ [content] := by
      rw [data_write _ _ _ _ hh, if_pos rfl]
    refine ⟨by rw [kmeth, hm], by rw [klev, hlv],
      h, by rw [kos, hos], ?_, ?_, ?_, ?_, ?_, ?_, ?_⟩
    · rw [fsp, ffs, lookup_write]; exact hlk
    · rw [ffs, inodes_length_write]; exact hh
    · rw [ffs, flines, hdh, hlines, wrap32_id _ (by omega) (by omega)]; simp
    · rw [ffs, hdh]; simp; omega
    · intro _; rw [ffs, hdh]; simp
    · rw [ffs, hdh, kren]; simp only [List.length_append, List.length_singleton]; omega
    · intro c hc
      rw [kren] at hc
      obtain ⟨cok, cne, i, ilk, ine, ilt, ilen⟩ := hren c hc
      rw [fsp, ffs, inodes_length_write]
      simp only [lookup_write]
      refine ⟨cok, cne, i, ilk, ine, ilt, ?_⟩
      rw [data_write _ _ _ _ hh, if_neg ine]; exact ilen

theorem sprintf_exited (env : Env) (level : Int) (content : List Char) (l : Logger) :
    (sprintf env level content l).exited =
      if level < l.level then l.exited else if level = FATAL_LEVEL then true else l.exited := by
  have hx : ∀ m : Logger, (writeRecord env level content m).exited =
      if level < m.level then m.exited else if level = FATAL_LEVEL then true else m.exited := by
    intro m
    unfold writeRecord
    by_cases hlev : level < m.level
    · simp [hlev]
    · simp only [hlev, if_false]
      cases ho : m.osFile <;> by_cases hc : m.console = true <;>
        by_cases hf : level = FATAL_LEVEL <;> simp [ho, hc, hf]
  unfold sprintf
  rw [hx]
  by_cases hneed : needMove env l = true
  · simp only [hneed, if_true, (move_keeps env l).1, (move_keeps env l).2.2.2.2.2]
  · have hneed2 : needMove env l = false := by simpa using hneed
    simp only [hneed2, Bool.false_eq_true, if_false]

theorem serve_stablePath (steps : List (Env × LogInfo)) :
    ∀ l : Logger, (serve steps l).stablePath = l.stablePath := by
  induction steps with
  | nil => intro l; rfl
  | cons st rest ih =>
    intro l
    obtain ⟨hlf, hlp, -⟩ := sprintf_renames st.1 st.2.level st.2.content l
    have h1 : (sprintf st.1 st.2.level st.2.content l).stablePath = l.stablePath := by
      simp only [Logger.stablePath, hlf, hlp]
    simp only [serve]
    split
    · exact h1
    · rw [ih, h1]

theorem linesInv_serve (L : Nat) (hL : 0 < L) (hL2 : L < 2 ^ 31 - 1)
    (steps : List (Env × LogInfo)) :
    ∀ (l : Logger) (n : Nat), LinesInv L l n → l.exited = false →
      (∀ e ∈ steps, e.1.allOk ∧ DEBUG_LEVEL ≤ e.2.level) →
      LinesInv L (serve steps l) (n + (untilFatal steps).length) := by
  induction steps with
  | nil => intro l n hinv _ _; simpa [serve, untilFatal] using hinv
  | cons st rest ih =>
    intro l n hinv hex hsteps
    obtain ⟨hok, hlev⟩ := hsteps st (by simp)
    have hlev0 : 0 ≤ st.2.level := hlev
    have h1 := linesInv_step L hL hL2 st.1 st.2.level st.2.content l n hok hlev0 hinv
    have hx := sprintf_exited st.1 st.2.level st.2.content l
    have hnl : ¬ st.2.level < l.level := by
      rw [hinv.2.1]; simp only [DEBUG_LEVEL]; omega
    rw [if_neg hnl, hex] at hx
    have hs : serve (st :: rest) l =
        if (sprintf st.1 st.2.level st.2.content l).exited then
          sprintf st.1 st.2.level st.2.content l
        else serve rest (sprintf st.1 st.2.level st.2.content l) := by
      obtain ⟨e, i⟩ := st; rfl
    have hu : untilFatal (st :: rest) =
        if st.2.level = FATAL_LEVEL then [st] else st :: untilFatal rest := rfl
    rw [hs, hu]
    by_cases hf : st.2.level = FATAL_LEVEL
    · rw [if_pos hf] at hx
      rw [hx, if_pos rfl, if_pos hf]
      exact h1
    · rw [if_neg hf] at hx
      rw [hx, if_neg Bool.false_ne_true, if_neg hf, List.length_cons]
      have := ih (sprintf st.1 st.2.level st.2.content l) (n + 1) h1 hx
        (fun e he => hsteps e (by simp [he]))
      rw [show n + ((untilFatal rest).length + 1) = n + 1 + (untilFatal rest).length by omega]
      exact this


/-- C2 (as stated, refuted): with `MaxLines = 3` and seven Info records there
is one rotation, but the rotated file holds four records and the active file
three: the rotation is triggered by record 5, not by record 4. -/
theorem rotation_by_lines_counterexample :
    (serve sevenRecords loggerLines3).renames.map (fun c => c.newPath) =
        ["/tmp/logs/app.2026-11-04.001.log".toList] ∧
      ((serve sevenRecords loggerLines3).fs.read
        "/tmp/logs/app.2026-11-04.001.log".toList).length = 4 ∧
      ((serve sevenRecords loggerLines3).fs.read "/tmp/logs/app.log".toList).length = 3 ∧
      (serve (sevenRecords.take 4) loggerLines3).renames = [] := by
  decide

/-- C2 (amended): for a logger whose policy sets only `MaxLines = L` with
`0 < L < 2 ^ 31 - 1`, minimum level Debug, a valid handle on an empty active
file and every file operation succeeding, after `n` processed records there
have been `(n - 1) / (L + 1)` rotations (the first is triggered by record
`L + 2`), every rename succeeded and every rotated file holds exactly `L + 1`
records, and the active file holds the remaining ones. -/
theorem rotation_by_lines (L : Nat) (hL : 0 < L) (hL2 : L < 2 ^ 31 - 1)
    (steps : List (Env × LogInfo)) (l : Logger) (h : Nat)
    (hmethod : l.method = { MaxDay := 0, MaxLines := (L : Int), MaxBytes := 0 })
    (hlevel : l.level = DEBUG_LEVEL) (hex : l.exited = false)
    (hos : l.osFile = some h) (hlk : l.fs.lookup l.stablePath = some h)
    (hh : h < l.fs.inodes.length) (hempty : l.fs.data h = [])
    (hlines : l.lines = 0) (hren : l.renames = [])
    (hsteps : ∀ e ∈ steps, e.1.allOk ∧ DEBUG_LEVEL ≤ e.2.level) :
    (serve steps l).renames.length = ((untilFatal steps).length - 1) / (L + 1) ∧
      (∀ c ∈ (serve steps l).renames,
        c.ok = true ∧ ((serve steps l).fs.read c.newPath).length = L + 1) ∧
      ((serve steps l).fs.read l.stablePath).length =
        (untilFatal steps).length - ((untilFatal steps).length - 1) / (L + 1) * (L + 1) := by
  have h0 : LinesInv L l 0 := by
    refine ⟨hmethod, hlevel, h, hos, hlk, hh, ?_, ?_, ?_, ?_, ?_⟩
    · rw [hlines, hempty]; rfl
    · rw [hempty]; simp
    · intro hc; omega
    · rw [hren, hempty]; simp
    · intro c hc; rw [hren] at hc; simp at hc
  have hfin := linesInv_serve L hL hL2 steps l 0 h0 hex hsteps
  rw [Nat.zero_add] at hfin
  obtain ⟨-, -, h2, -, hlk2, -, -, hle, hpos, hn, hren2⟩ := hfin
  rw [serve_stablePath] at hlk2
  generalize (untilFatal steps).length = n at hn hpos ⊢
  generalize hK : (serve steps l).renames.length = K at hn
  generalize ha : ((serve steps l).fs.data h2).length = a at hn hle hpos
  have hdiv : (n - 1) / (L + 1) = K := by
    apply Nat.div_eq_of_lt_le
    · rcases Nat.eq_zero_or_pos n with hz | hp
      · subst hz
        have : K * (L + 1) = 0 := by omega
        omega
      · have := hpos hp; omega
    · have : (K + 1) * (L + 1) = K * (L + 1) + (L + 1) := by ring
      rw [this]
      rcases Nat.eq_zero_or_pos n with hz | hp
      · omega
      · have := hpos hp; omega
  refine ⟨hdiv.symm, ?_, ?_⟩
  · intro c hc
    obtain ⟨cok, -, i, ilk, -, -, ilen⟩ := hren2 c hc
    refine ⟨cok, ?_⟩
    simp only [FileSys.read, ilk]; exact ilen
  · simp only [FileSys.read, hlk2, ha, hdiv]
    omega

/-- The scenario of C2: `MaxLines = 3` and seven Info records give one
rotation; the rotated file holds four records and the active file three. -/
theorem rotation_by_lines_witness :
    (serve sevenRecords loggerLines3).renames.length = (7 - 1) / (3 + 1) ∧
      (∀ c ∈ (serve sevenRecords loggerLines3).renames,
        c.ok = true ∧ ((serve sevenRecords loggerLines3).fs.read c.newPath).length = 3 + 1) ∧
      ((serve sevenRecords loggerLines3).fs.read loggerLines3.stablePath).length =
        7 - (7 - 1) / (3 + 1) * (3 + 1) :=
  rotation_by_lines 3 (by decide) (by decide) sevenRecords loggerLines3 0
    (by decide) (by decide) (by decide) (by decide) (by decide) (by decide) (by decide)
    (by decide) (by decide) (by decide)

/-! ### Reading back the sequence field -/

theorem decimal_chars (n : Nat) : ∀ c ∈ decimal n, ∃ m, m < 10 ∧ c = Nat.digitChar m := by
  induction n using Nat.strong_induction_on with
  | _ n ih =>
    by_cases h : n < 10
    · rw [decimal_small n h]
      intro c hc
      exact ⟨n, h, by simpa using hc⟩
    · rw [decimal_step n (by omega)]
      intro c hc
      rcases List.mem_append.mp hc with hc | hc
      · exact ih (n / 10) (by omega) c hc
      · exact ⟨n % 10, by omega, by simpa using hc⟩

theorem digitChar_digit (m : Nat) (h : m < 10) :
    (Nat.digitChar m).isDigit = true ∧ (Nat.digitChar m).toNat - '0'.toNat = m ∧
      Nat.digitChar m ≠ '.' := by
  interval_cases m <;> decide

/-- One step of the fold of `parseDigits`. -/
theorem parseDigits_fold (n : Nat) : ∀ a : Nat,
    (decimal n).foldl (fun acc c => acc.bind (fun a =>
      if c.isDigit then some (10 * a + (c.toNat - '0'.toNat)) else none)) (some a) =
      some (a * 10 ^ (decimal n).length + n) := by
  induction n using Nat.strong_induction_on with
  | _ n ih =>
    intro a
    by_cases h : n < 10
    · obtain ⟨h1, h2, -⟩ := digitChar_digit n h
      rw [decimal_small n h]
      simp only [List.foldl_cons, List.foldl_nil, Option.some_bind, h1, if_true, h2,
        List.length_singleton, pow_one]
      congr 1; ring
    · obtain ⟨h1, h2, -⟩ := digitChar_digit (n % 10) (by omega)
      rw [decimal_step n (by omega), List.foldl_append, ih (n / 10) (by omega) a]
      simp only [List.foldl_cons, List.foldl_nil, Option.some_bind, h1, if_true, h2,
        List.length_append, List.length_singleton, pow_succ]
      congr 1
      have := Nat.div_add_mod n 10
      nlinarith [this]

theorem parseDigits_zeroPad (w n : Nat) : parseDigits (zeroPad w (decimal n)) = some n := by
  have hne : zeroPad w (decimal n) ≠ [] := by
    have := decimal_length_pos n
    intro hc
    unfold zeroPad at hc
    rw [(List.append_eq_nil.mp hc).2] at this
    simp at this
  unfold parseDigits
  rw [if_neg hne]
  unfold zeroPad
  rw [List.foldl_append]
  have hz : ∀ k : Nat, (List.replicate k '0').foldl (fun acc c => acc.bind (fun a =>
      if c.isDigit then some (10 * a + (c.toNat - '0'.toNat)) else none)) (some 0) = some 0 := by
    intro k
    induction k with
    | zero => rfl
    | succ j ihj =>
      rw [List.replicate_succ, List.foldl_cons]
      have : (some 0 : Option Nat).bind (fun a =>
          if '0'.isDigit then some (10 * a + ('0'.toNat - '0'.toNat)) else none) = some 0 := by
        decide
      rw [this, ihj]
  rw [hz, parseDigits_fold]
  simp

theorem seqField_inj (m n : Nat) (h : seqField m = seqField n) : m = n := by
  have hm := parseDigits_zeroPad (max 3 (decimal m).length) m
  have hn := parseDigits_zeroPad (max 3 (decimal n).length) n
  unfold seqField at h
  rw [h, hn] at hm
  exact (Option.some.inj hm).symm

theorem seqField_no_dot (n : Nat) : '.' ∉ seqField n := by
  unfold seqField zeroPad
  intro hc
  rcases List.mem_append.mp hc with hc | hc
  · have := (List.mem_replicate.mp hc).2
    exact absurd this (by decide)
  · obtain ⟨m, hm, hcm⟩ := decimal_chars n '.' hc
    exact (digitChar_digit m hm).2.2 hcm.symm

/-! ### Distinct sequence numbers give distinct rotated names -/

theorem rotatedName_shape (logFile date : List Char) (n : Nat) (hn : n < 2 ^ 31) :
    rotatedName logFile date (n : Int) =
      coreName logFile ++ ['.'] ++ date ++ ['.'] ++ seqField n ++ LOG_SUFFIX := by
  have hcount := countLoop_eq 11 n 0 (by omega)
  have hlen := decimal_length_pos n
  have hsp : ∀ w, sprintfZeroPad w (n : Int) = zeroPad w (decimal n) := by
    intro w; simp [sprintfZeroPad]
  simp only [rotatedName, hcount, hsp, seqField, Nat.zero_add]
  congr 2
  by_cases h0 : n = 0
  · subst h0
    simp only [if_true]
    have : (decimal 0).length = 1 := by decide
    simp [this]
  · simp only [h0, if_false]
    by_cases h3 : (decimal n).length > 3
    · rw [if_pos h3, max_eq_right (by omega)]
    · rw [if_neg h3, max_eq_left (by omega)]

theorem last_dot_split (a b s t : List Char) (hs : '.' ∉ s) (ht : '.' ∉ t)
    (h : a ++ '.' :: s = b ++ '.' :: t) : s = t := by
  induction a generalizing b with
  | nil =>
    cases b with
    | nil => simpa using h
    | cons c b2 =>
      simp only [List.nil_append, List.cons_append, List.cons.injEq] at h
      exact absurd (h.2 ▸ (by simp : '.' ∈ b2 ++ '.' :: t)) hs
  | cons x a2 ih =>
    cases b with
    | nil =>
      simp only [List.nil_append, List.cons_append, List.cons.injEq] at h
      exact absurd (h.2 ▸ (by simp : '.' ∈ a2 ++ '.' :: s)) ht
    | cons c b2 =>
      simp only [List.cons_append, List.cons.injEq] at h
      exact ih b2 h.2

theorem rotatedName_inj (logFile d1 d2 : List Char) (m n : Nat) (hm : m < 2 ^ 31)
    (hn : n < 2 ^ 31)
    (h : rotatedName logFile d1 (m : Int) = rotatedName logFile d2 (n : Int)) : m = n := by
  rw [rotatedName_shape logFile d1 m hm, rotatedName_shape logFile d2 n hn] at h
  have h1 := List.append_cancel_right h
  simp only [List.append_assoc, List.singleton_append] at h1
  have h2 := List.append_cancel_left h1
  exact seqField_inj m n
    (last_dot_split d1 d2 _ _ (seqField_no_dot m) (seqField_no_dot n) (List.cons.inj h2).2)

/-! ### No record is lost or duplicated by a rotation -/

theorem concatInv_step (s : Nat) (lv : Int) (env : Env) (level : Int)
    (content : List Char) (l : Logger) (recs : List (List Char))
    (hok : env.allOk) (hlev : ¬ level < lv) (hinv : ConcatInv s lv l recs)
    (hb : s + (sprintf env level content l).renames.length < 2 ^ 31) :
    ConcatInv s lv (sprintf env level content l) (recs ++ [content]) := by
  obtain ⟨hlv, h, hos, hlk, hh, hnum, hnd, hren, hcat, ds, hds⟩ := hinv
  obtain ⟨hro, hoo, hwo⟩ := hok
  have hnl : ¬ level < l.level := by rw [hlv]; exact hlev
  unfold sprintf at hb ⊢
  by_cases hneed : needMove env l = true
  · obtain ⟨mos, min, mlk, -, -, mre⟩ := move_ok env l h hro hoo hlk
    obtain ⟨klv, -, klf, klp, -, -⟩ := move_keeps env l
    have mnum := (move_renames env l).1
    have hnl2 : ¬ level < (move env l).level := by rw [klv]; exact hnl
    simp only [hneed, if_true] at hb ⊢
    obtain ⟨kren, knum, kfile, kpath, -, klev, -, kos, -⟩ :=
      writeRecord_keeps env level content (move env l)
    obtain ⟨ffs, -, -, fsp⟩ :=
      writeRecord_fields env level content (move env l) _ mos hnl2 hwo
    rw [kren, mre] at hb
    simp only [List.length_append, List.length_singleton] at hb
    have hnew : wrap32 (l.fileNum + 1) = ((s + l.renames.length + 1 : Nat) : Int) := by
      rw [hnum, wrap32_id _ (by omega) (by omega)]; push_cast; ring
    rw [hnew] at mre mlk mnum
    unfold ConcatInv
    simp only [Logger.stablePath] at fsp hlk ⊢
    rw [klf, klp] at fsp
    rw [klf] at kfile
    rw [klp] at kpath
    have hlen : l.fs.inodes.length < (move env l).fs.inodes.length := by
      rw [min]; simp
    have hdnew : ((move env l).fs.write l.fs.inodes.length content).data l.fs.inodes.length
        = [content] := by
      rw [data_write _ _ _ _ hlen, if_pos rfl, move_data]; simp [FileSys.data]
    have hdold : ∀ i, i < l.fs.inodes.length →
        ((move env l).fs.write l.fs.inodes.length content).data i = l.fs.data i := by
      intro i hi
      rw [data_write _ _ _ _ hlen, if_neg (by omega), move_data]
    -- an earlier rotated name is neither the stable path nor the new name
    have hfresh : ∀ c ∈ l.renames,
        c.newPath ≠ l.logPath ++ ['/'] ++ l.logFile ∧
        c.newPath ≠ l.logPath ++ ['/'] ++
          rotatedName l.logFile env.date ((s + l.renames.length + 1 : Nat) : Int) := by
      intro c hc
      obtain ⟨-, ⟨d, m, hm, hp⟩, -⟩ := hren c hc
      constructor
      · rw [hp]; exact rotatedPath_ne _ _ _ _
      · rw [hp]
        intro heq
        have := rotatedName_inj l.logFile d env.date m (s + l.renames.length + 1)
          (by omega) (by omega) (List.append_cancel_left heq)
        omega
    have hreadold : ∀ c ∈ l.renames,
        ((move env l).fs.write l.fs.inodes.length content).read c.newPath =
          l.fs.read c.newPath := by
      intro c hc
      obtain ⟨-, -, i, ilk, -, ilt⟩ := hren c hc
      obtain ⟨f1, f2⟩ := hfresh c hc
      simp only [FileSys.read, lookup_write]
      rw [mlk, if_neg f1, if_neg f2, ilk]
      exact hdold i ilt
    have hreadnew : ((move env l).fs.write l.fs.inodes.length content).read
        (l.logPath ++ ['/'] ++
          rotatedName l.logFile env.date ((s + l.renames.length + 1 : Nat) : Int)) =
          l.fs.data h := by
      simp only [FileSys.read, lookup_write]
      rw [mlk, if_neg (rotatedPath_ne _ _ _ _), if_pos rfl]
      exact hdold h hh
    refine ⟨by rw [klev, klv, hlv], l.fs.inodes.length, by rw [kos, mos], ?_, ?_, ?_, ?_,
      ?_, ?_, ds ++ [env.date], ?_⟩
    · rw [fsp, ffs, lookup_write, mlk, if_pos rfl]
    · rw [ffs, inodes_length_write]; exact hlen
    · rw [knum, mnum, kren, mre]; simp only [List.length_append, List.length_singleton]
      push_cast; ring
    · rw [kren, mre, List.map_append, List.nodup_append]
      refine ⟨hnd, by simp, ?_⟩
      intro p hp1 hp2
      simp only [List.map_cons, List.map_nil, List.mem_singleton] at hp2
      obtain ⟨c, hc, rfl⟩ := List.mem_map.mp hp1
      exact (hfresh c hc).2 hp2
    · intro c hc
      rw [kren, mre] at hc ⊢
      rw [kfile, kpath, ffs, inodes_length_write]
      simp only [lookup_write, List.length_append, List.length_singleton]
      rcases List.mem_append.mp hc with hc | hc
      · obtain ⟨cok, ⟨d, m, hm, hp⟩, i, ilk, ine, ilt⟩ := hren c hc
        obtain ⟨f1, f2⟩ := hfresh c hc
        refine ⟨cok, ⟨d, m, by omega, hp⟩, i, ?_, by omega, by omega⟩
        rw [mlk, if_neg f1, if_neg f2, ilk]
      · rw [List.mem_singleton] at hc
        subst hc
        refine ⟨rfl, ⟨env.date, s + l.renames.length + 1, by omega, rfl⟩, h, ?_,
          by omega, by omega⟩
        rw [mlk, if_neg (rotatedPath_ne _ _ _ _), if_pos rfl]
    · rw [kren, mre, ffs, hdnew, List.map_append, List.flatten_append]
      simp only [List.map_cons, List.map_nil, List.flatten_cons, List.flatten_nil,
        List.append_nil]
      rw [hreadnew, List.map_congr_left hreadold, ← hcat]
    · have hdl : ds.length = l.renames.length := by
        have := congrArg List.length hds
        simpa using this.symm
      rw [kren, mre, kfile, kpath, List.map_append, hds, List.enum_append, List.map_append,
        List.enumFrom_singleton, hdl]
      rfl
  · have hneed2 : needMove env l = false := by simpa using hneed
    simp only [hneed2, Bool.false_eq_true, if_false] at hb ⊢
    obtain ⟨kren, knum, kfile, kpath, -, klev, -, kos, -⟩ :=
      writeRecord_keeps env level content l
    obtain ⟨ffs, -, -, fsp⟩ := writeRecord_fields env level content l h hos hnl hwo
    unfold ConcatInv
    simp only [Logger.stablePath] at fsp hlk ⊢
    have hdh : (l.fs.write h content).data h = l.fs.data h ++ [content] := by
      rw [data_write _ _ _ _ hh, if_pos rfl]
    have hread : ∀ c ∈ l.renames,
        (l.fs.write h content).read c.newPath = l.fs.read c.newPath := by
      intro c hc
      obtain ⟨-, -, i, ilk, ine, -⟩ := hren c hc
      simp only [FileSys.read, lookup_write, ilk]
      rw [data_write _ _ _ _ hh, if_neg ine]
    refine ⟨by rw [klev, hlv], h, by rw [kos, hos], ?_, ?_, ?_, ?_, ?_, ?_, ds, ?_⟩
    · rw [fsp, ffs, lookup_write]; exact hlk
    · rw [ffs, inodes_length_write]; exact hh
    · rw [knum, kren]; exact hnum
    · rw [kren]; exact hnd
    · intro c hc
      rw [kren] at hc ⊢
      rw [kfile, kpath, ffs, inodes_length_write]
      simp only [lookup_write]
      exact hren c hc
    · rw [kren, ffs, hdh, List.map_congr_left hread, ← hcat]
      simp only [List.append_assoc]
    · rw [kren, kfile, kpath]; exact hds

theorem serve_renames_mono (steps : List (Env × LogInfo)) :
    ∀ l : Logger, l.renames.length ≤ (serve steps l).renames.length := by
  induction steps with
  | nil => intro l; exact Nat.le_refl _
  | cons st rest ih =>
    intro l
    have hs : serve (st :: rest) l =
        if (sprintf st.1 st.2.level st.2.content l).exited then
          sprintf st.1 st.2.level st.2.content l
        else serve rest (sprintf st.1 st.2.level st.2.content l) := by
      obtain ⟨e, i⟩ := st; rfl
    have h1 : l.renames.length ≤ (sprintf st.1 st.2.level st.2.content l).renames.length := by
      obtain ⟨-, -, hc⟩ := sprintf_renames st.1 st.2.level st.2.content l
      rcases hc with ⟨-, hr⟩ | ⟨-, ok, hr⟩ <;> simp [hr]
    rw [hs]
    split
    · exact h1
    · exact Nat.le_trans h1 (ih _)

theorem concatInv_serve (s : Nat) (lv : Int) (steps : List (Env × LogInfo)) :
    ∀ (l : Logger) (recs : List (List Char)), ConcatInv s lv l recs → l.exited = false →
      (∀ e ∈ steps, e.1.allOk ∧ lv ≤ e.2.level) →
      s + (serve steps l).renames.length < 2 ^ 31 →
      ConcatInv s lv (serve steps l)
        (recs ++ (untilFatal steps).map (fun e => e.2.content)) := by
  induction steps with
  | nil => intro l recs hinv _ _ _; simpa [serve, untilFatal] using hinv
  | cons st rest ih =>
    intro l recs hinv hex hsteps hb
    obtain ⟨hok, hlev⟩ := hsteps st (by simp)
    have hs : serve (st :: rest) l =
        if (sprintf st.1 st.2.level st.2.content l).exited then
          sprintf st.1 st.2.level st.2.content l
        else serve rest (sprintf st.1 st.2.level st.2.content l) := by
      obtain ⟨e, i⟩ := st; rfl
    have hu : untilFatal (st :: rest) =
        if st.2.level = FATAL_LEVEL then [st] else st :: untilFatal rest := rfl
    have hx := sprintf_exited st.1 st.2.level st.2.content l
    have hnl : ¬ st.2.level < l.level := by rw [hinv.1]; omega
    rw [if_neg hnl, hex] at hx
    rw [hs] at hb ⊢
    rw [hu]
    by_cases hf : st.2.level = FATAL_LEVEL
    · rw [if_pos hf] at hx
      rw [hx, if_pos rfl] at hb ⊢
      rw [if_pos hf]
      exact concatInv_step s lv st.1 st.2.level st.2.content l recs hok (by omega) hinv hb
    · rw [if_neg hf] at hx
      rw [hx, if_neg Bool.false_ne_true] at hb ⊢
      rw [if_neg hf]
      have hb1 : s + (sprintf st.1 st.2.level st.2.content l).renames.length < 2 ^ 31 :=
        Nat.lt_of_le_of_lt (Nat.add_le_add_left (serve_renames_mono rest _) s) hb
      have h1 := concatInv_step s lv st.1 st.2.level st.2.content l recs hok (by omega)
        hinv hb1
      have := ih (sprintf st.1 st.2.level st.2.content l) (recs ++ [st.2.content]) h1 hx
        (fun e he => hsteps e (by simp [he])) hb
      simpa using this


theorem serve_names (steps : List (Env × LogInfo)) :
    ∀ l : Logger, (serve steps l).logFile = l.logFile ∧ (serve steps l).logPath = l.logPath := by
  induction steps with
  | nil => intro l; exact ⟨rfl, rfl⟩
  | cons st rest ih =>
    intro l
    obtain ⟨hlf, hlp, -⟩ := sprintf_renames st.1 st.2.level st.2.content l
    have hs : serve (st :: rest) l =
        if (sprintf st.1 st.2.level st.2.content l).exited then
          sprintf st.1 st.2.level st.2.content l
        else serve rest (sprintf st.1 st.2.level st.2.content l) := by
      obtain ⟨e, i⟩ := st; rfl
    rw [hs]
    split
    · exact ⟨hlf, hlp⟩
    · exact ⟨(ih _).1.trans hlf, (ih _).2.trans hlp⟩

/-- C1 (as stated, refuted): from sequence number 2147483646, with every
operation succeeding and every record above the minimum level, three records
make two rotations, to the names of sequence numbers 2147483647 and
-2147483648; every record is in exactly one file, but the rotated files in
increasing sequence-number order followed by the active file read `r1 r0 r2`,
not the processing order `r0 r1 r2`. -/
theorem rotation_keeps_records_counterexample :
    (serve threeRecords loggerWrap).renames.map (fun c => c.newPath) =
        ["/tmp/logs/app.2026-11-04.2147483647.log".toList,
         "/tmp/logs/app.2026-11-04.-2147483648.log".toList] ∧
      (serve threeRecords loggerWrap).fs.read
          "/tmp/logs/app.2026-11-04.2147483647.log".toList = ["r0\n".toList] ∧
      (serve threeRecords loggerWrap).fs.read
          "/tmp/logs/app.2026-11-04.-2147483648.log".toList = ["r1\n".toList] ∧
      (serve threeRecords loggerWrap).fs.read "/tmp/logs/app.log".toList = ["r2\n".toList] ∧
      (serve threeRecords loggerWrap).fs.read
            "/tmp/logs/app.2026-11-04.-2147483648.log".toList ++
          (serve threeRecords loggerWrap).fs.read
            "/tmp/logs/app.2026-11-04.2147483647.log".toList ++
          (serve threeRecords loggerWrap).fs.read "/tmp/logs/app.log".toList ≠
        threeRecords.map (fun e => e.2.content) := by
  decide

/-- C1 (amended): start from a valid handle on an empty active file at
sequence number `s ≥ 0`; let every record be at or above the minimum level,
every write, rename and reopen succeed, and `s` plus the number of rotations
stay below `2 ^ 31`. Then the rotated files have pairwise distinct names, none
of them the stable path, the rotation of index `k` (from 0) went to the name of
sequence number `s + k + 1`, and the rotated files in that order followed by
the active file hold exactly the contents of the processed records, in
processing order. -/
theorem rotation_keeps_records (s : Nat) (steps : List (Env × LogInfo)) (l : Logger)
    (h : Nat) (hos : l.osFile = some h) (hlk : l.fs.lookup l.stablePath = some h)
    (hh : h < l.fs.inodes.length) (hempty : l.fs.data h = [])
    (hren : l.renames = []) (hex : l.exited = false) (hnum : l.fileNum = (s : Int))
    (hsteps : ∀ e ∈ steps, e.1.allOk ∧ l.level ≤ e.2.level)
    (hbound : s + (serve steps l).renames.length < 2 ^ 31) :
    ((serve steps l).renames.map (fun c => c.newPath)).Nodup ∧
      (∀ c ∈ (serve steps l).renames, c.ok = true ∧ c.newPath ≠ l.stablePath) ∧
      (∃ ds : List (List Char), (serve steps l).renames.map (fun c => c.newPath) =
        ds.enum.map (fun p => l.logPath ++ ['/'] ++
          rotatedName l.logFile p.2 ((s + p.1 + 1 : Nat) : Int))) ∧
      ((serve steps l).renames.map (fun c => (serve steps l).fs.read c.newPath)).flatten ++
          (serve steps l).fs.read l.stablePath =
        (untilFatal steps).map (fun e => e.2.content) := by
  have h0 : ConcatInv s l.level l [] := by
    refine ⟨rfl, h, hos, hlk, hh, ?_, ?_, ?_, ?_, [], ?_⟩
    · rw [hnum, hren]; rfl
    · rw [hren]; exact List.nodup_nil
    · intro c hc; rw [hren] at hc; simp at hc
    · rw [hren, hempty]; rfl
    · rw [hren]; rfl
  have hfin := concatInv_serve s l.level steps l [] h0 hex hsteps hbound
  rw [List.nil_append] at hfin
  obtain ⟨-, h2, -, hlk2, -, -, hnd, hren2, hcat, ds, hds⟩ := hfin
  obtain ⟨hlf, hlp⟩ := serve_names steps l
  have hsp : (serve steps l).stablePath = l.stablePath := by
    simp only [Logger.stablePath, hlf, hlp]
  rw [hsp] at hlk2
  rw [hlf, hlp] at hds
  refine ⟨hnd, ?_, ⟨ds, hds⟩, ?_⟩
  · intro c hc
    obtain ⟨cok, ⟨d, m, -, hp⟩, -⟩ := hren2 c hc
    refine ⟨cok, ?_⟩
    rw [hp, hlf, hlp]
    exact rotatedPath_ne _ _ _ _
  · rw [← hcat]
    simp only [FileSys.read, hlk2]

/-- An instance of C1: the seven records on `loggerLines3`, sequence number 0:
the rotated file followed by the active file holds the seven contents. -/
theorem rotation_keeps_records_witness :
    ((serve sevenRecords loggerLines3).renames.map
        (fun c => (serve sevenRecords loggerLines3).fs.read c.newPath)).flatten ++
        (serve sevenRecords loggerLines3).fs.read loggerLines3.stablePath =
      (untilFatal sevenRecords).map (fun e => e.2.content) :=
  (rotation_keeps_records 0 sevenRecords loggerLines3 0 (by decide) (by decide) (by decide)
    (by decide) (by decide) (by decide) (by decide) (by decide) (by decide)).2.2.2

/-! ### Recovery of the sequence number from a rotated name -/

theorem seqField_head (n : Nat) :
    ∃ c rest, seqField n = c :: rest ∧ c ≠ '-' ∧ c ≠ '+' := by
  have hne : seqField n ≠ [] := by
    have := decimal_length_pos n
    intro hc
    unfold seqField zeroPad at hc
    rw [(List.append_eq_nil.mp hc).2] at this
    simp at this
  obtain ⟨c, rest, hcr⟩ := List.exists_cons_of_ne_nil hne
  have hmem : c ∈ seqField n := by rw [hcr]; simp
  have hd : ∃ m, m < 10 ∧ c = Nat.digitChar m := by
    unfold seqField zeroPad at hmem
    rcases List.mem_append.mp hmem with hc | hc
    · exact ⟨0, by decide, (List.mem_replicate.mp hc).2⟩
    · exact decimal_chars n c hc
  obtain ⟨m, hm, rfl⟩ := hd
  refine ⟨_, rest, hcr, ?_, ?_⟩ <;> interval_cases m <;> decide

theorem parseUintLoop_zeros (k : Nat) (rest : List Char) :
    parseUintLoop (List.replicate k '0' ++ rest) 0 = parseUintLoop rest 0 := by
  induction k with
  | zero => rfl
  | succ j ih =>
    rw [List.replicate_succ, List.cons_append, parseUintLoop]
    have h1 : ('0' : Char).isDigit = true := by decide
    have h2 : 10 * 0 + (('0' : Char).toNat - ('0' : Char).toNat) = 0 := by decide
    rw [if_pos h1, if_neg (by decide), h2, if_neg (by decide)]
    exact ih

theorem parseUintLoop_decimal (n : Nat) : ∀ (a : Nat) (rest : List Char),
    a * 10 ^ (decimal n).length + n < 2 ^ 63 →
      parseUintLoop (decimal n ++ rest) a =
        parseUintLoop rest (a * 10 ^ (decimal n).length + n) := by
  induction n using Nat.strong_induction_on with
  | _ n ih =>
    intro a rest hfit
    by_cases h : n < 10
    · obtain ⟨h1, h2, -⟩ := digitChar_digit n h
      rw [decimal_small n h] at hfit ⊢
      simp only [List.length_singleton, pow_one] at hfit ⊢
      rw [List.singleton_append, parseUintLoop, if_pos h1, h2, if_neg (by omega),
        if_neg (by omega)]
      congr 1; ring
    · obtain ⟨h1, h2, -⟩ := digitChar_digit (n % 10) (by omega)
      rw [decimal_step n (by omega)] at hfit ⊢
      simp only [List.length_append, List.length_singleton, pow_succ] at hfit ⊢
      generalize hX : a * 10 ^ (decimal (n / 10)).length = X at hfit ⊢
      have hfit2 : X * 10 + n < 2 ^ 63 := by
        have : a * (10 ^ (decimal (n / 10)).length * 10) = X * 10 := by rw [← hX]; ring
        omega
      rw [List.append_assoc, ih (n / 10) (by omega) a _ (by rw [hX]; omega), hX,
        List.singleton_append, parseUintLoop, if_pos h1, h2, if_neg (by omega),
        if_neg (by omega)]
      congr 1
      have : a * (10 ^ (decimal (n / 10)).length * 10) = X * 10 := by rw [← hX]; ring
      omega

theorem atoi_seqField (n : Nat) (hn : n < 2 ^ 63) : atoi (seqField n) = (n : Int) := by
  obtain ⟨c, rest, hcr, h1, h2⟩ := seqField_head n
  have hp : parseUint (c :: rest) = ParseResult.value n := by
    rw [← hcr]
    simp only [parseUint, hcr, if_false, reduceCtorEq]
    rw [← hcr]
    unfold seqField zeroPad
    rw [parseUintLoop_zeros]
    have := parseUintLoop_decimal n 0 [] (by omega)
    simpa using this
  rw [hcr]
  have hsign : ¬ (c = '+' ∨ c = '-') := by tauto
  have : ¬ ((n : Int) ≥ 2 ^ 63) := by omega
  unfold atoi
  simp only []
  rw [if_neg hsign, hp]
  simp only []
  rw [if_neg h1, if_neg this]

theorem getFileNumStep_rotated (pre : List Char) (n : Nat) (hn : n < 2 ^ 31) :
    getFileNumStep pre 0 (pre ++ seqField n ++ LOG_SUFFIX) = (n : Int) := by
  have hc1 : contains (pre ++ seqField n ++ LOG_SUFFIX) pre = true :=
    (contains_iff _ _).2 ⟨[], seqField n ++ LOG_SUFFIX, by simp⟩
  have hdrop : (pre ++ seqField n ++ LOG_SUFFIX).drop pre.length = seqField n ++ LOG_SUFFIX := by
    rw [List.append_assoc, List.drop_left]
  have hc2 : contains (seqField n ++ LOG_SUFFIX) LOG_SUFFIX = true :=
    (contains_iff _ _).2 ⟨seqField n, [], by simp⟩
  have htake : (seqField n ++ LOG_SUFFIX).take
      ((seqField n ++ LOG_SUFFIX).length - LOG_SUFFIX.length) = seqField n := by
    simp
  simp only [getFileNumStep, hc1, if_true, hdrop, hc2, htake, atoi_seqField n (by omega)]
  split <;> omega

/-! ### The state right after a rotation -/

theorem move_counters (env : Env) (l : Logger) :
    (move env l).lines = 0 ∧ (move env l).bytes = 0 ∧
      (move env l).fileExpire = nextSplitDayUnix env l.method.MaxDay := by
  unfold move
  simp only []
  split
  · exact ⟨rfl, rfl, rfl⟩
  · split <;> exact ⟨rfl, rfl, rfl⟩

/-- C15: after a rotation whose rename and reopen both succeed, both counters
are 0, the handle is a file opened at the stable path that did not exist
before and is empty, and the policy, the minimum level, the console flag, the
directory and the base name are unchanged. -/
theorem move_success (env : Env) (l : Logger) (h : Nat)
    (hren : osRename env l.fs l.stablePath = some h) (hopen : env.openOk = true) :
    (move env l).lines = 0 ∧ (move env l).bytes = 0 ∧
      (move env l).osFile = some l.fs.inodes.length ∧
      (move env l).fs.lookup l.stablePath = some l.fs.inodes.length ∧
      (move env l).fs.data l.fs.inodes.length = [] ∧
      (move env l).method = l.method ∧ (move env l).level = l.level ∧
      (move env l).console = l.console ∧ (move env l).logPath = l.logPath ∧
      (move env l).logFile = l.logFile := by
  have hro : env.renameOk = true := by
    by_contra hc
    simp [osRename, hc] at hren
  have hlk : l.fs.lookup (l.logPath ++ ['/'] ++ l.logFile) = some h := by
    simpa [osRename, hro, Logger.stablePath] using hren
  obtain ⟨mos, -, mlk, mli, mby, -⟩ := move_ok env l h hro hopen hlk
  obtain ⟨klv, kco, klf, klp, kme, -⟩ := move_keeps env l
  refine ⟨mli, mby, mos, ?_, ?_, kme, klv, kco, klp, klf⟩
  · rw [mlk]; simp [Logger.stablePath]
  · rw [move_data]; simp [FileSys.data]

/-- An instance of C15: the rotation of `loggerFull` in `envOk`. -/
theorem move_success_witness :
    osRename envOk loggerFull.fs loggerFull.stablePath = some 0 ∧
      (move envOk loggerFull).lines = 0 ∧ (move envOk loggerFull).bytes = 0 ∧
      (move envOk loggerFull).osFile = some 1 :=
  ⟨by decide, (move_success envOk loggerFull 0 (by decide) (by decide)).1,
    (move_success envOk loggerFull 0 (by decide) (by decide)).2.1,
    (move_success envOk loggerFull 0 (by decide) (by decide)).2.2.1⟩

/-! ### Counting and the level filter -/

/-- C12 (as stated, refuted): a Debug record of eight bytes processed with a
valid handle by a logger of minimum level Info leaves `lines` and `bytes` at
0; it is not counted. -/
theorem sprintf_filtered_count_counterexample :
    DEBUG_LEVEL < loggerInfo.level ∧ loggerInfo.osFile = some 0 ∧
      loggerInfo.lines = 0 ∧ loggerInfo.bytes = 0 ∧
      (sprintf envOk DEBUG_LEVEL "dropped\n".toList loggerInfo).lines = 0 ∧
      (sprintf envOk DEBUG_LEVEL "dropped\n".toList loggerInfo).bytes = 0 := by
  decide

/-- C12 (amended): a record below the minimum level is not counted: after the
step `lines` and `bytes` are what they were, or both 0 when a rotation was due
at that step; only the rotation check runs before the level filter. -/
theorem sprintf_filtered_count (env : Env) (level : Int) (content : List Char)
    (l : Logger) (hlev : level < l.level) :
    (sprintf env level content l).lines = (if needMove env l then 0 else l.lines) ∧
      (sprintf env level content l).bytes = (if needMove env l then 0 else l.bytes) := by
  unfold sprintf
  by_cases hneed : needMove env l = true
  · have hlev2 : level < (move env l).level := by rw [(move_keeps env l).1]; exact hlev
    simp only [hneed, if_true, writeRecord_filtered env level content _ hlev2]
    exact ⟨(move_counters env l).1, (move_counters env l).2.1⟩
  · have hneed2 : needMove env l = false := by simpa using hneed
    simp only [hneed2, Bool.false_eq_true, if_false,
      writeRecord_filtered env level content l hlev]
    exact ⟨trivial, trivial⟩

/-- An instance of C12: the Debug record on `loggerInfo` leaves both counters. -/
theorem sprintf_filtered_count_witness :
    DEBUG_LEVEL < loggerInfo.level ∧
      (sprintf envOk DEBUG_LEVEL "dropped\n".toList loggerInfo).lines =
        (if needMove envOk loggerInfo then 0 else loggerInfo.lines) :=
  ⟨by decide,
    (sprintf_filtered_count envOk DEBUG_LEVEL "dropped\n".toList loggerInfo (by decide)).1⟩

/-! ### Where a record that passes the filter goes -/

theorem writeRecord_nil (env : Env) (level : Int) (content : List Char) (l : Logger)
    (hh : l.osFile = none) (hlev : ¬ level < l.level) :
    (writeRecord env level content l).fs = l.fs ∧
      (writeRecord env level content l).stdout = l.stdout ++ [Event.print content] := by
  unfold writeRecord
  simp only [hlev, if_false]
  by_cases hc : l.console = true <;> by_cases hf : level = FATAL_LEVEL <;>
    simp [hc, hf, hh]

theorem writeRecord_some (env : Env) (level : Int) (content : List Char) (l : Logger)
    (h : Nat) (hh : l.osFile = some h) (hlev : ¬ level < l.level) :
    (writeRecord env level content l).fs =
        (if env.writeOk then l.fs.write h content else l.fs) ∧
      (writeRecord env level content l).stdout =
        (if l.console then l.stdout ++ [Event.print content] else l.stdout) := by
  rw [writeRecord_file env level content l h hh hlev]
  exact ⟨rfl, rfl⟩

theorem check_level (env : Env) (l : Logger) :
    (if needMove env l then move env l else l).level = l.level := by
  by_cases hneed : needMove env l = true
  · simp only [hneed, if_true, (move_keeps env l).1]
  · have hneed2 : needMove env l = false := by simpa using hneed
    simp only [hneed2, Bool.false_eq_true, if_false]

/-- C11 (as stated, refuted): with minimum level Fatal, a record enqueued by
`Print` is discarded by the writer step: the file and standard output stay as
they were. -/
theorem print_filtered_counterexample :
    Print siteMain "raw line\n".toList = { level := 4, content := "raw line\n".toList } ∧
      loggerFatalOnly.level = FATAL_LEVEL ∧
      sprintf envOk (Print siteMain "raw line\n".toList).level
          (Print siteMain "raw line\n".toList).content loggerFatalOnly = loggerFatalOnly := by
  decide

/-- C11 (amended): `Print` and `Printf` enqueue the content unformatted at
levels 4 and 5, and the writer step writes such a record whenever the minimum
level is not above the record's level (so for every minimum level from Debug
to Error): to the file when the handle is valid and the write succeeds, to
standard output when the handle is nil. -/
theorem print_passes_filter (site : CallSite) (env : Env) (content : List Char)
    (l : Logger) (level : Int) (hl : level = PRINT_LEVEL ∨ level = PRINTF_LEVEL)
    (hmin : l.level ≤ level) :
    enqueue site level content = { level := level, content := content } ∧
      (∀ h, (if needMove env l then move env l else l).osFile = some h →
        env.writeOk = true →
          (sprintf env (enqueue site level content).level
              (enqueue site level content).content l).fs =
            (if needMove env l then move env l else l).fs.write h content) ∧
      ((if needMove env l then move env l else l).osFile = none →
        (sprintf env (enqueue site level content).level
            (enqueue site level content).content l).stdout =
          (if needMove env l then move env l else l).stdout ++ [Event.print content]) := by
  have he : enqueue site level content = { level := level, content := content } := by
    simp [enqueue, hl]
  have hlev : ¬ level < (if needMove env l then move env l else l).level := by
    rw [check_level]; omega
  rw [he]
  refine ⟨rfl, ?_, ?_⟩
  · intro h hh hw
    simp only [sprintf]
    rw [(writeRecord_some env level content _ h hh hlev).1, hw, if_pos rfl]
  · intro hh
    simp only [sprintf]
    exact (writeRecord_nil env level content _ hh hlev).2

/-- An instance of C11: `Print` against minimum level Debug. -/
theorem print_passes_filter_witness :
    loggerFresh.level ≤ PRINT_LEVEL ∧
      enqueue siteMain PRINT_LEVEL "raw line\n".toList =
        { level := PRINT_LEVEL, content := "raw line\n".toList } :=
  ⟨by decide,
    (print_passes_filter siteMain envOk "raw line\n".toList loggerFresh PRINT_LEVEL
      (Or.inl rfl) (by decide)).1⟩

/-- C13 (as stated, refuted): an Info record reaches a logger of minimum level
Debug with a valid handle and the console off, and the write fails; `sprintf`
ignores the error: the record is in no file and not on standard output. -/
theorem sprintf_swallows_counterexample :
    ¬ ((1 : Int) < loggerFresh.level) ∧ loggerFresh.osFile = some 0 ∧
      (sprintf envWriteFails 1 "lost\n".toList loggerFresh).fs = loggerFresh.fs ∧
      (sprintf envWriteFails 1 "lost\n".toList loggerFresh).stdout = [] := by
  decide

/-- C13 (amended): for a record at or above the minimum level, let the handle
be the one in place after the rotation check. If it is a valid handle on an
existing file and the write succeeds, the content is appended to that file; if
it is nil, the file system is left alone and the content is printed to
standard output exactly once, with the console on or off. -/
theorem sprintf_delivers (env : Env) (level : Int) (content : List Char) (l : Logger)
    (hlev : ¬ level < l.level) :
    (∀ h, (if needMove env l then move env l else l).osFile = some h →
        h < (if needMove env l then move env l else l).fs.inodes.length →
        env.writeOk = true →
          (sprintf env level content l).fs.data h =
            (if needMove env l then move env l else l).fs.data h ++ [content]) ∧
      ((if needMove env l then move env l else l).osFile = none →
        (sprintf env level content l).fs = (if needMove env l then move env l else l).fs ∧
        (sprintf env level content l).stdout =
          (if needMove env l then move env l else l).stdout ++ [Event.print content]) := by
  have hlev2 : ¬ level < (if needMove env l then move env l else l).level := by
    rw [check_level]; exact hlev
  constructor
  · intro h hh hvalid hw
    simp only [sprintf]
    rw [(writeRecord_some env level content _ h hh hlev2).1, hw, if_pos rfl,
      data_write _ _ _ _ hvalid, if_pos rfl]
  · intro hh
    simp only [sprintf]
    exact writeRecord_nil env level content _ hh hlev2

/-- An instance of C13: an Info record on `loggerFresh` is appended to the
active file. -/
theorem sprintf_delivers_witness :
    ¬ ((1 : Int) < loggerFresh.level) ∧
      (sprintf envOk 1 "kept\n".toList loggerFresh).fs.data 0 =
        (if needMove envOk loggerFresh then move envOk loggerFresh
          else loggerFresh).fs.data 0 ++ ["kept\n".toList] :=
  ⟨by decide,
    (sprintf_delivers envOk 1 "kept\n".toList loggerFresh (by decide)).1 0
      (by decide) (by decide) (by decide)⟩

/-! ### Termination on a fatal record -/

/-- C14 (as stated, refuted): a Fatal record reaches a logger of minimum level
Debug with a valid handle and the console off, and the write fails; the step
calls `os.Exit(1)` although the content is in no file and not on standard
output. -/
theorem sprintf_exit_counterexample :
    loggerFresh.level = DEBUG_LEVEL ∧ loggerFresh.osFile = some 0 ∧
      (sprintf envWriteFails FATAL_LEVEL "fatal\n".toList loggerFresh).exited = true ∧
      (sprintf envWriteFails FATAL_LEVEL "fatal\n".toList loggerFresh).fs = loggerFresh.fs ∧
      (sprintf envWriteFails FATAL_LEVEL "fatal\n".toList loggerFresh).stdout = [] := by
  decide

/-- C14 (amended): with a minimum level from Debug to Fatal (any level up to
Fatal), the writer step calls `os.Exit(1)` exactly for a record of level
Fatal, and it does so after the step has acted on the sinks: with a valid
handle in place after the rotation check the content is appended when the
`Write` succeeds and the file is left as it was when the `Write` fails, the
content is printed when the console is on, and with a nil handle the content
is printed once. -/
theorem sprintf_exit_iff (env : Env) (level : Int) (content : List Char) (l : Logger)
    (hhi : l.level ≤ FATAL_LEVEL) (hex : l.exited = false) :
    ((sprintf env level content l).exited = true ↔ level = FATAL_LEVEL) ∧
      (level = FATAL_LEVEL →
        (∀ h, (if needMove env l then move env l else l).osFile = some h →
          (sprintf env level content l).fs =
              (if env.writeOk then
                (if needMove env l then move env l else l).fs.write h content
              else (if needMove env l then move env l else l).fs) ∧
            (sprintf env level content l).stdout =
              (if (if needMove env l then move env l else l).console then
                (if needMove env l then move env l else l).stdout ++ [Event.print content]
              else (if needMove env l then move env l else l).stdout)) ∧
        ((if needMove env l then move env l else l).osFile = none →
          (sprintf env level content l).stdout =
            (if needMove env l then move env l else l).stdout ++ [Event.print content])) := by
  have hx := sprintf_exited env level content l
  constructor
  · rw [hx, hex]
    by_cases hf : level = FATAL_LEVEL
    · have hnl : ¬ level < l.level := by rw [hf]; omega
      rw [if_neg hnl, if_pos hf]
      exact ⟨fun _ => hf, fun _ => rfl⟩
    · by_cases hnl : level < l.level
      · rw [if_pos hnl]
        exact ⟨fun hc => absurd hc (by simp), fun hc => absurd hc hf⟩
      · rw [if_neg hnl, if_neg hf]
        exact ⟨fun hc => absurd hc (by simp), fun hc => absurd hc hf⟩
  · intro hf
    have hlev2 : ¬ level < (if needMove env l then move env l else l).level := by
      rw [check_level, hf]; omega
    constructor
    · intro h hh
      simp only [sprintf]
      exact writeRecord_some env level content _ h hh hlev2
    · intro hh
      simp only [sprintf]
      exact (writeRecord_nil env level content _ hh hlev2).2

/-- An instance of C14: a Fatal record on `loggerFresh` ends the process, an
Info record does not. -/
theorem sprintf_exit_iff_witness :
    ((sprintf envOk FATAL_LEVEL "fatal\n".toList loggerFresh).exited = true ↔
        FATAL_LEVEL = FATAL_LEVEL) ∧
      ((sprintf envOk INFO_LEVEL "info\n".toList loggerFresh).exited = true ↔
        INFO_LEVEL = FATAL_LEVEL) :=
  ⟨(sprintf_exit_iff envOk FATAL_LEVEL "fatal\n".toList loggerFresh (by decide)
      (by decide)).1,
    (sprintf_exit_iff envOk INFO_LEVEL "info\n".toList loggerFresh (by decide)
      (by decide)).1⟩

/-! ### The rotation deadline -/

theorem newLoggerArgs_fileExpire (env : Env) (statOk : Bool)
    (listing : Option (List (List Char))) (fs : FileSys) (logPath logFile : List Char)
    (level : Int) (method : Option MoveMethod) :
    (NewLoggerArgs env statOk listing fs logPath logFile level method).fileExpire =
      nextSplitDayUnix env (check method).MaxDay := by
  unfold NewLoggerArgs
  simp only []
  cases listing <;> cases hopen : env.openOk <;> cases statOk <;> simp

/-! ### The byte counter and the size of the active file -/

theorem size_write (fs : FileSys) (h : Nat) (c : List Char) (hh : h < fs.inodes.length) :
    (fs.write h c).size h = fs.size h + c.length := by
  simp only [FileSys.size, data_write fs h h c hh, if_true, List.map_append, List.sum_append,
    List.map_cons, List.map_nil, List.sum_cons, List.sum_nil, Nat.add_zero]

theorem wrap64_id (a : Int) (h0 : 0 ≤ a) (h1 : a < 2 ^ 63) : wrap64 a = a := by
  simp only [wrap64]
  norm_num at h1 ⊢
  omega

theorem bytesInv_write (env : Env) (level : Int) (content : List Char) (l : Logger)
    (hinv : BytesInv l) (hw : env.writeOk = true)
    (hfit : l.bytes + (content.length : Int) < 2 ^ 63) :
    BytesInv (writeRecord env level content l) := by
  obtain ⟨h, hos, hlk, hh, hb⟩ := hinv
  by_cases hlev : level < l.level
  · rw [writeRecord_filtered env level content l hlev]
    exact ⟨h, hos, hlk, hh, hb⟩
  · obtain ⟨ffs, -, -, fsp⟩ := writeRecord_fields env level content l h hos hlev hw
    obtain ⟨-, -, -, -, -, -, -, kos, -⟩ := writeRecord_keeps env level content l
    have hbytes : (writeRecord env level content l).bytes =
        wrap64 (l.bytes + content.length) := by
      rw [writeRecord_file env level content l h hos hlev]
    refine ⟨h, by rw [kos, hos], by rw [fsp, ffs, lookup_write]; exact hlk,
      by rw [ffs, inodes_length_write]; exact hh, ?_⟩
    rw [hbytes, ffs, size_write _ _ _ hh, wrap64_id _ (by rw [hb]; omega) hfit, hb]
    push_cast; rfl

theorem bytesInv_move (env : Env) (l : Logger) (hinv : BytesInv l)
    (hro : env.renameOk = true) (hoo : env.openOk = true) :
    BytesInv (move env l) ∧ (move env l).bytes = 0 := by
  obtain ⟨h, hos, hlk, hh, hb⟩ := hinv
  simp only [Logger.stablePath] at hlk
  obtain ⟨mos, min, mlk, -, mby, -⟩ := move_ok env l h hro hoo hlk
  obtain ⟨-, -, klf, klp, -, -⟩ := move_keeps env l
  refine ⟨⟨l.fs.inodes.length, mos, ?_, by rw [min]; simp, ?_⟩, mby⟩
  · simp only [Logger.stablePath, klf, klp]
    rw [mlk, if_pos rfl]
  · have hd : (move env l).fs.data l.fs.inodes.length = [] := by
      rw [move_data]; simp [FileSys.data]
    rw [mby]
    simp only [FileSys.size, hd]
    rfl

theorem openAppend_handle (fs : FileSys) (path : List Char) (hwf : fs.wf) :
    (fs.openAppend path).1.lookup path = some (fs.openAppend path).2 ∧
      (fs.openAppend path).2 < (fs.openAppend path).1.inodes.length := by
  cases hl : fs.lookup path with
  | none =>
    obtain ⟨h2, hin, hlk⟩ := lookup_openAppend_new fs path path hl
    rw [hlk, if_pos rfl, h2, hin]
    exact ⟨rfl, by simp⟩
  | some i =>
    have ho : fs.openAppend path = (fs, i) := by simp only [FileSys.openAppend, hl]
    rw [ho]
    refine ⟨hl, ?_⟩
    simp only [FileSys.lookup, Option.map_eq_some'] at hl
    obtain ⟨e, he, hei⟩ := hl
    have := hwf e (List.mem_of_find?_eq_some he)
    rw [hei] at this
    exact this

theorem newLoggerArgs_bytes (env : Env) (listing : Option (List (List Char)))
    (fs : FileSys) (logPath logFile : List Char) (level : Int)
    (method : Option MoveMethod) (hopen : env.openOk = true) (hwf : fs.wf) :
    BytesInv (NewLoggerArgs env true listing fs logPath logFile level method) := by
  obtain ⟨hlk, hlt⟩ := openAppend_handle fs (logPath ++ ['/'] ++ logFile) hwf
  unfold NewLoggerArgs
  simp only [hopen, if_true]
  cases listing <;> exact ⟨_, rfl, hlk, hlt, rfl⟩


/-- C19: with every file operation succeeding and file sizes within `int64`,
`bytes` equals the size of the file at the stable path, which the handle is:
this holds after `NewLoggerArgs` when the open and the `Stat` succeed, and
every writer step preserves it, whether the record is filtered or written and
whether or not a rotation precedes it. -/
theorem bytes_invariant :
    (∀ (env : Env) (listing : Option (List (List Char))) (fs : FileSys)
        (logPath logFile : List Char) (level : Int) (method : Option MoveMethod),
      env.openOk = true → fs.wf →
        BytesInv (NewLoggerArgs env true listing fs logPath logFile level method)) ∧
      (∀ (env : Env) (level : Int) (content : List Char) (l : Logger),
        BytesInv l → env.allOk → l.bytes + (content.length : Int) < 2 ^ 63 →
          BytesInv (sprintf env level content l)) := by
  constructor
  · intro env listing fs logPath logFile level method hopen hwf
    exact newLoggerArgs_bytes env listing fs logPath logFile level method hopen hwf
  · intro env level content l hinv hok hfit
    obtain ⟨hro, hoo, hwo⟩ := hok
    unfold sprintf
    by_cases hneed : needMove env l = true
    · simp only [hneed, if_true]
      obtain ⟨hm, hz⟩ := bytesInv_move env l hinv hro hoo
      apply bytesInv_write env level content _ hm hwo
      rw [hz]
      obtain ⟨h, -, -, -, hb⟩ := hinv
      omega
    · have hneed2 : needMove env l = false := by simpa using hneed
      simp only [hneed2, Bool.false_eq_true, if_false]
      exact bytesInv_write env level content l hinv hwo hfit

/-- An instance of C19: a logger built on a file of ten bytes starts with
`bytes = 10`, and after an Info record of five bytes `bytes = 15`, the size of
the active file. -/
theorem bytes_invariant_witness :
    (NewLoggerArgs envOk true none fsOneRecord "/tmp/logs".toList "app.log".toList 0
        none).bytes = 10 ∧
      BytesInv (sprintf envOk 1 "next\n".toList
        (NewLoggerArgs envOk true none fsOneRecord "/tmp/logs".toList "app.log".toList 0
          none)) := by
  have hstart := bytes_invariant.1 envOk none fsOneRecord "/tmp/logs".toList
    "app.log".toList 0 none (by decide) (by intro e he; revert e; decide)
  exact ⟨by decide, bytes_invariant.2 envOk 1 "next\n".toList _ hstart (by decide) (by decide)⟩

/-! ### No slice is out of range -/

theorem contains_length (s sub : List Char) (h : contains s sub = true) :
    sub.length ≤ s.length := by
  obtain ⟨a, b, rfl⟩ := (contains_iff s sub).1 h
  simp only [List.length_append]
  omega

theorem coreNameChecked_eq (logFile : List Char) :
    coreNameChecked logFile = some (coreName logFile) := by
  unfold coreNameChecked coreName
  by_cases hc : contains logFile LOG_SUFFIX = true
  · have hl := contains_length _ _ hc
    have hj : ((logFile.length : Int) - (LOG_SUFFIX.length : Int)).toNat =
        logFile.length - LOG_SUFFIX.length := by omega
    simp only [hc, if_true, sliceTo, hj]
    rw [if_pos (by omega)]
  · simp only [hc, Bool.false_eq_true, if_false]

theorem getFileNumStepChecked_eq (pre : List Char) (max : Int) (name : List Char) :
    getFileNumStepChecked pre max name = some (getFileNumStep pre max name) := by
  unfold getFileNumStepChecked getFileNumStep
  by_cases hc : contains name pre = true
  · have hl := contains_length _ _ hc
    have hfrom : sliceFrom name (pre.length : Int) = some (name.drop pre.length) := by
      simp only [sliceFrom, Int.toNat_ofNat]
      rw [if_pos (by omega)]
    simp only [hc, if_true, hfrom, Option.some_bind]
    by_cases hc2 : contains (name.drop pre.length) LOG_SUFFIX = true
    · have hl2 := contains_length _ _ hc2
      have hj : (((name.drop pre.length).length : Int) - (LOG_SUFFIX.length : Int)).toNat =
          (name.drop pre.length).length - LOG_SUFFIX.length := by omega
      simp only [hc2, if_true, sliceTo, hj]
      rw [if_pos (by omega)]
      rfl
    · simp only [hc2, Bool.false_eq_true, if_false]
  · simp only [hc, Bool.false_eq_true, if_false]

theorem getFileNumLoopChecked_eq (pre : List Char) (files : List (List Char)) :
    ∀ max : Int, getFileNumLoopChecked pre max files =
      some (files.foldl (getFileNumStep pre) max) := by
  induction files with
  | nil => intro max; rfl
  | cons name rest ih =>
    intro max
    simp only [getFileNumLoopChecked, getFileNumStepChecked_eq, Option.some_bind, ih,
      List.foldl_cons]

theorem countLoopChecked_eq (f : Nat) : ∀ (n : Nat) (c : Nat), n < 10 ^ f →
    countLoopChecked f (n : Int) c = some (countLoop f (n : Int) c) := by
  induction f with
  | zero =>
    intro n c h
    have : n = 0 := by simpa using h
    subst this; simp [countLoopChecked, countLoop]
  | succ k ih =>
    intro n c h
    unfold countLoopChecked countLoop
    by_cases hn : (n : Int) > 0
    · have hdiv : Int.tdiv (n : Int) 10 = ((n / 10 : Nat) : Int) := by
        rw [Int.tdiv_eq_ediv (by omega) (by decide)]; rfl
      rw [if_pos hn, if_pos hn, hdiv]
      exact ih (n / 10) (c + 1) (by rw [pow_succ] at h; omega)
    · rw [if_neg hn, if_neg hn]

theorem countLoopChecked_nonpos (f : Nat) (num : Int) (c : Nat) (h : num ≤ 0) :
    countLoopChecked f num c = some (countLoop f num c) := by
  have hn : ¬ num > 0 := by omega
  cases f <;> simp [countLoopChecked, countLoop, hn]

/-- C20: `getFileNum` and `genFileName` never slice out of range: for every
active file name and every listing (empty or not, with names of any length)
the versions in which an out-of-range slice is a failure return the value of
the plain versions, and for every `int32` sequence number the counting loop of
`genFileName` reaches its exit. -/
theorem slices_in_range (env : Env) (l : Logger) (files : List (List Char)) :
    getFileNumChecked env l files = some (getFileNum env l files) ∧
      (-2147483648 ≤ l.fileNum → l.fileNum < 2147483648 →
        genFileNameChecked env l = some (genFileName env l)) := by
  constructor
  · unfold getFileNumChecked getFileNum
    by_cases h0 : files.length = 0
    · simp only [h0, if_true]
    · simp only [h0, if_false, coreNameChecked_eq, Option.some_bind,
        getFileNumLoopChecked_eq, Option.map_some']
  · intro hlo hhi
    have hcount : countLoopChecked 11 l.fileNum 0 = some (countLoop 11 l.fileNum 0) := by
      by_cases hpos : 0 < l.fileNum
      · obtain ⟨n, hn⟩ := Int.eq_ofNat_of_zero_le (le_of_lt hpos)
        rw [hn]
        exact countLoopChecked_eq 11 n 0 (by omega)
      · exact countLoopChecked_nonpos 11 l.fileNum 0 (by omega)
    simp only [genFileNameChecked, hcount, Option.some_bind, coreNameChecked_eq,
      Option.map_some', genFileName, rotatedName]

/-- An instance of C20: the listing with a name shorter than ".log" and the
largest `int32` sequence number. -/
theorem slices_in_range_witness :
    getFileNumChecked envOk loggerLast ["a".toList, "".toList] =
        some (getFileNum envOk loggerLast ["a".toList, "".toList]) ∧
      genFileNameChecked envOk loggerLast = some (genFileName envOk loggerLast) :=
  ⟨(slices_in_range envOk loggerLast ["a".toList, "".toList]).1,
    (slices_in_range envOk loggerLast ["a".toList, "".toList]).2 (by decide) (by decide)⟩

/-! ### The deadline after a rotation -/

theorem localMidnight_after (env : Env) (horizon : Int) (hclock : env.clockValid horizon)
    (n : Nat) : (n : Int) + 1 ≤ horizon → env.now < env.localMidnight ((n : Int) + 1) := by
  induction n with
  | zero => intro _; simpa using hclock.2.1
  | succ k ih =>
    intro hk
    have h1 := ih (by push_cast at hk; omega)
    have h2 := hclock.2.2 ((k : Int) + 1) (by omega) (by push_cast at hk; omega)
    push_cast
    omega

/-- C16 (as stated, refuted): the policy `MaxDay = 106751991146540` passes
`check` unchanged, and a rotation at 10:00:00 on 2026-11-04 with it stores a
deadline that is negative, hence before the instant of the rotation: the sum
of today's midnight and that many days does not fit `int64`. -/
theorem deadline_recomputed_counterexample :
    loggerFarDeadline.method.MaxDay = 106751991146540 ∧
      (move envOk loggerFarDeadline).fileExpire = -9223372036854745216 ∧
      (move envOk loggerFarDeadline).fileExpire < envOk.now := by
  decide

/-- C16 (amended): `nextSplitDayUnix d` is 0 for `d < 1` and, for `d ≥ 1`, the
Unix time of local midnight of today plus `d` calendar days reduced to
`int64`; the stored deadline is this value of `MaxDay` after construction and
after every call of `move`, whatever triggered it and however it ends; so with
`MaxDay ≥ 1`, a clock consistent up to `MaxDay` days and that midnight below
`2 ^ 63`, the
deadline after a rotation is that midnight and is strictly later than the
instant of the rotation. -/
theorem deadline_recomputed (env : Env) (l : Logger) :
    (∀ d : Int, d < 1 → nextSplitDayUnix env d = 0) ∧
      (∀ d : Int, 1 ≤ d → nextSplitDayUnix env d = wrap64 (env.localMidnight d)) ∧
      (∀ (statOk : Bool) (listing : Option (List (List Char))) (fs : FileSys)
          (logPath logFile : List Char) (level : Int) (method : Option MoveMethod),
        (NewLoggerArgs env statOk listing fs logPath logFile level method).fileExpire =
          nextSplitDayUnix env (check method).MaxDay) ∧
      (move env l).fileExpire = nextSplitDayUnix env l.method.MaxDay ∧
      (env.clockValid l.method.MaxDay → 1 ≤ l.method.MaxDay →
        env.localMidnight l.method.MaxDay < 2 ^ 63 →
        (move env l).fileExpire = env.localMidnight l.method.MaxDay ∧
          env.now < (move env l).fileExpire) := by
  refine ⟨?_, ?_, ?_, (move_counters env l).2.2, ?_⟩
  · intro d hd; simp [nextSplitDayUnix, hd]
  · intro d hd
    have : ¬ d < 1 := by omega
    simp [nextSplitDayUnix, this]
  · intro statOk listing fs logPath logFile level method
    exact newLoggerArgs_fileExpire env statOk listing fs logPath logFile level method
  · intro hclock hday hfit
    have hlater : env.now < env.localMidnight l.method.MaxDay := by
      obtain ⟨n, hn⟩ := Int.eq_ofNat_of_zero_le (show 0 ≤ l.method.MaxDay - 1 by omega)
      have := localMidnight_after env l.method.MaxDay hclock n (by omega)
      rw [← hn] at this
      simpa using this
    have hnow := hclock.1
    have hw : wrap64 (env.localMidnight l.method.MaxDay) = env.localMidnight l.method.MaxDay := by
      simp only [wrap64]
      norm_num at hfit ⊢
      omega
    have hnl : ¬ l.method.MaxDay < 1 := by omega
    rw [(move_counters env l).2.2]
    simp only [nextSplitDayUnix, hnl, if_false, hw]
    exact ⟨trivial, hlater⟩

/-- An instance of C16: a rotation of `loggerFresh` (one day) at 10:00:00 on
2026-11-04 sets the deadline to the coming midnight, after the clock. -/
theorem deadline_recomputed_witness :
    (move envOk loggerFresh).fileExpire = 1793836800 ∧
      envOk.now < (move envOk loggerFresh).fileExpire := by
  have h := (deadline_recomputed envOk loggerFresh).2.2.2.2 ?_ (by decide) (by decide)
  · exact ⟨by rw [h.1]; decide, h.2⟩
  · refine ⟨by decide, by decide, ?_⟩
    intro d _ _
    show (1793750400 : Int) + 86400 * d - 0 < 1793750400 + 86400 * (d + 1) - 0
    omega

/-! ### The sequence numbers of the rotations of a run -/

/-- C5 (amended): on a run within one calendar day `d`, from sequence number
`s ≥ 0`, for every active file name, as long as `s` plus the number `K` of
rotations of the run stays below `2 ^ 31`, the `k`-th call of `os.Rename` of
the run targets the rotated name carrying sequence number `s + k`, for
`k = 1, ..., K`, and the sequence number after the run is `s + K`. -/
theorem rotation_sequence (d : List Char) (s : Nat) (steps : List (Env × LogInfo))
    (l : Logger) (hnum : l.fileNum = (s : Int)) (hday : ∀ e ∈ steps, e.1.date = d)
    (hbound : s + ((serve steps l).renames.length - l.renames.length) < 2 ^ 31) :
    (serve steps l).fileNum =
        ((s + ((serve steps l).renames.length - l.renames.length) : Nat) : Int) ∧
      ((serve steps l).renames.drop l.renames.length).map (fun c => c.newPath) =
        (List.range ((serve steps l).renames.length - l.renames.length)).map
          (fun k => l.logPath ++ ['/'] ++
            (coreName l.logFile ++ ['.'] ++ d ++ ['.'] ++ seqField (s + (k + 1)) ++
              LOG_SUFFIX)) := by
  obtain ⟨K, hf, hr⟩ := serve_renames d steps l hday (by omega) (by omega)
  have hlen : (serve steps l).renames.length = l.renames.length + K := by
    have := congrArg List.length hr
    simpa using this
  have hK : (serve steps l).renames.length - l.renames.length = K := by omega
  rw [hK] at hbound ⊢
  have hdrop : ((serve steps l).renames.drop l.renames.length).map (fun c => c.newPath) =
      (List.range K).map (fun k => l.logPath ++ ['/'] ++
        rotatedName l.logFile d (wrap32 (l.fileNum + (k + 1 : Nat)))) := by
    rw [List.map_drop, hr]
    have : (List.map (fun c => c.newPath) l.renames).length = l.renames.length := by simp
    rw [← this, List.drop_left]
  constructor
  · rw [hf, hnum, wrap32_id _ (by omega) (by omega)]
    push_cast; rfl
  · rw [hdrop]
    apply List.map_congr_left
    intro k hk
    have hk2 : k < K := List.mem_range.mp hk
    have hw : wrap32 (l.fileNum + ((k + 1 : Nat) : Int)) = ((s + (k + 1) : Nat) : Int) := by
      rw [hnum, wrap32_id _ (by omega) (by omega)]
      push_cast; rfl
    rw [hw, rotatedName_shape l.logFile d (s + (k + 1)) (by omega)]

/-- An instance of C5: three records on a logger named `app`, sequence number
0, make two rotations, to `app.2026-11-04.001.log` and
`app.2026-11-04.002.log`. -/
theorem rotation_sequence_witness :
    (serve threeRecords loggerPlainName).fileNum = 2 ∧
      (serve threeRecords loggerPlainName).renames.map (fun c => c.newPath) =
        ["/tmp/logs/app.2026-11-04.001.log".toList,
         "/tmp/logs/app.2026-11-04.002.log".toList] := by
  have h := rotation_sequence "2026-11-04".toList 0 threeRecords loggerPlainName
    (by decide) (by decide) (by decide)
  have hK : (serve threeRecords loggerPlainName).renames.length -
      loggerPlainName.renames.length = 2 := by decide
  rw [hK] at h
  constructor
  · exact h.1
  · have h2 := h.2
    simp only [show loggerPlainName.renames.length = 0 by decide, List.drop_zero] at h2
    rw [h2]
    decide

/-! ### Recovery of the sequence number at a restart -/

theorem getFileNumStep_own (pre : List Char) (acc : Int) (m : Nat) (hm : m < 2 ^ 31) :
    getFileNumStep pre acc (pre ++ seqField m ++ LOG_SUFFIX) =
      if (m : Int) > acc then (m : Int) else acc := by
  have hc1 : contains (pre ++ seqField m ++ LOG_SUFFIX) pre = true :=
    (contains_iff _ _).2 ⟨[], seqField m ++ LOG_SUFFIX, by simp⟩
  have hdrop : (pre ++ seqField m ++ LOG_SUFFIX).drop pre.length = seqField m ++ LOG_SUFFIX := by
    rw [List.append_assoc, List.drop_left]
  have hc2 : contains (seqField m ++ LOG_SUFFIX) LOG_SUFFIX = true :=
    (contains_iff _ _).2 ⟨seqField m, [], by simp⟩
  have htake : (seqField m ++ LOG_SUFFIX).take
      ((seqField m ++ LOG_SUFFIX).length - LOG_SUFFIX.length) = seqField m := by
    simp
  simp only [getFileNumStep, hc1, if_true, hdrop, hc2, htake, atoi_seqField m (by omega)]

theorem getFileNumStep_other (pre : List Char) (acc : Int) (f : List Char)
    (h : contains f pre = false) : getFileNumStep pre acc f = acc := by
  simp only [getFileNumStep, h, Bool.false_eq_true, if_false]

theorem getFileNum_fold (pre : List Char) (n : Nat) (hn : n < 2 ^ 31)
    (files : List (List Char)) :
    (∀ f ∈ files, (∃ m : Nat, m ≤ n ∧ f = pre ++ seqField m ++ LOG_SUFFIX) ∨
        contains f pre = false) →
      ∀ acc : Int, acc ≤ (n : Int) →
        files.foldl (getFileNumStep pre) acc ≤ (n : Int) ∧
          acc ≤ files.foldl (getFileNumStep pre) acc ∧
          (pre ++ seqField n ++ LOG_SUFFIX ∈ files →
            files.foldl (getFileNumStep pre) acc = (n : Int)) := by
  induction files with
  | nil =>
    intro _ acc hacc
    exact ⟨hacc, le_refl _, fun h => absurd h (by simp)⟩
  | cons f rest ih =>
    intro hfiles acc hacc
    have hrest := ih (fun g hg => hfiles g (by simp [hg]))
    have hstep : acc ≤ getFileNumStep pre acc f ∧ getFileNumStep pre acc f ≤ (n : Int) := by
      rcases hfiles f (by simp) with ⟨m, hm, rfl⟩ | hother
      · rw [getFileNumStep_own pre acc m (by omega)]
        split <;> omega
      · rw [getFileNumStep_other pre acc f hother]
        exact ⟨le_refl _, hacc⟩
    obtain ⟨h1, h2, h3⟩ := hrest (getFileNumStep pre acc f) hstep.2
    rw [List.foldl_cons]
    refine ⟨h1, le_trans hstep.1 h2, ?_⟩
    intro hmem
    rcases List.mem_cons.mp hmem with heq | hin
    · have hval : getFileNumStep pre acc f = (n : Int) := by
        rw [← heq, getFileNumStep_own pre acc n hn]
        split <;> omega
      rw [hval] at h1 h2 ⊢
      omega
    · exact h3 hin

theorem newLoggerArgs_fileNum (env : Env) (statOk : Bool) (files : List (List Char))
    (fs : FileSys) (logPath logFile : List Char) (level : Int)
    (method : Option MoveMethod) :
    (NewLoggerArgs env statOk (some files) fs logPath logFile level method).fileNum =
      if files.length = 0 then 0
      else wrap32 (files.foldl
        (getFileNumStep (coreName logFile ++ ['.'] ++ env.date ++ ['.'])) 0) := by
  unfold NewLoggerArgs
  simp only []
  cases hopen : env.openOk <;> cases statOk <;> simp [getFileNum]

/-- C18: for every active file name, date and sequence number `n` with
`0 ≤ n < 2 ^ 31`, `getFileNum` on the listing whose only entry is the name
`genFileName` gives for `n` returns `n`; hence two such names are equal only
for equal sequence numbers, whatever their dates; and a logger constructed on
the same date over a directory that holds that name, where every other entry
is a rotated name of the same file and date with a number up to `n` or does
not contain the prefix `core.date.`, starts at sequence number `n`, so that
its first rotation takes the number `n + 1`. -/
theorem getFileNum_genFileName (env : Env) (l : Logger) (n : Nat) (hn : n < 2 ^ 31)
    (hnum : l.fileNum = (n : Int)) :
    getFileNum env l [genFileName env l] = (n : Int) ∧
      (∀ (env2 : Env) (l2 : Logger) (m : Nat), m < 2 ^ 31 → l2.logFile = l.logFile →
        l2.fileNum = (m : Int) → genFileName env2 l2 = genFileName env l → m = n) ∧
      (∀ (env2 : Env) (statOk : Bool) (fs : FileSys) (level : Int)
          (method : Option MoveMethod) (files : List (List Char)),
        env2.date = env.date → genFileName env l ∈ files →
        (∀ f ∈ files,
          (∃ m : Nat, m ≤ n ∧ f = rotatedName l.logFile env.date (m : Int)) ∨
            contains f (coreName l.logFile ++ ['.'] ++ env.date ++ ['.']) = false) →
        (NewLoggerArgs env2 statOk (some files) fs l.logPath l.logFile level
            method).fileNum = (n : Int) ∧
          (n + 1 < 2 ^ 31 → ∀ env3 : Env,
            (move env3 (NewLoggerArgs env2 statOk (some files) fs l.logPath l.logFile level
              method)).fileNum = ((n + 1 : Nat) : Int))) := by
  have hname : genFileName env l =
      (coreName l.logFile ++ ['.'] ++ env.date ++ ['.']) ++ seqField n ++ LOG_SUFFIX := by
    rw [genFileName, hnum, rotatedName_shape l.logFile env.date n hn]
  refine ⟨?_, ?_, ?_⟩
  · simp only [getFileNum, List.length_singleton, one_ne_zero, if_false, List.foldl_cons,
      List.foldl_nil]
    rw [hname, getFileNumStep_rotated _ n hn, wrap32_id _ (by omega) (by omega)]
  · intro env2 l2 m hm hfile hnum2 heq
    rw [genFileName, genFileName, hnum, hnum2, hfile] at heq
    exact rotatedName_inj l.logFile env2.date env.date m n hm hn heq
  · intro env2 statOk fs level method files hdate hmem hfiles
    have hne : ¬ files.length = 0 := by
      intro h0
      rw [List.length_eq_zero] at h0
      rw [h0] at hmem
      simp at hmem
    have hfiles2 : ∀ f ∈ files,
        (∃ m : Nat, m ≤ n ∧ f = (coreName l.logFile ++ ['.'] ++ env.date ++ ['.']) ++
          seqField m ++ LOG_SUFFIX) ∨
        contains f (coreName l.logFile ++ ['.'] ++ env.date ++ ['.']) = false := by
      intro f hf
      rcases hfiles f hf with ⟨m, hm, rfl⟩ | hother
      · exact Or.inl ⟨m, hm, rotatedName_shape l.logFile env.date m (by omega)⟩
      · exact Or.inr hother
    rw [hname] at hmem
    have hstart : (NewLoggerArgs env2 statOk (some files) fs l.logPath l.logFile level
        method).fileNum = (n : Int) := by
      rw [newLoggerArgs_fileNum, if_neg hne, hdate,
        (getFileNum_fold _ n hn files hfiles2 0 (by omega)).2.2 hmem,
        wrap32_id _ (by omega) (by omega)]
    refine ⟨hstart, ?_⟩
    intro hnext env3
    rw [(move_renames env3 _).1, hstart, wrap32_id _ (by omega) (by omega)]
    push_cast; rfl

/-- An instance of C18: the name for sequence number 2 on 2026-11-04 is read
back as 2, and a logger constructed that day over a directory holding the
rotated files 001 and 002 next to other files starts at sequence number 2. -/
theorem getFileNum_genFileName_witness :
    getFileNum envOk { loggerFresh with fileNum := 2 }
        [genFileName envOk { loggerFresh with fileNum := 2 }] = 2 ∧
      (NewLoggerArgs envOk true (some listingRestart) fsOneRecord "/tmp/logs".toList
        "app.log".toList 0 none).fileNum = 2 :=
  ⟨(getFileNum_genFileName envOk { loggerFresh with fileNum := 2 } 2 (by decide) rfl).1,
    ((getFileNum_genFileName envOk { loggerFresh with fileNum := 2 } 2 (by decide) rfl).2.2
      envOk true fsOneRecord 0 none listingRestart rfl (by decide) (by decide)).1⟩

end GoLogger
